import Mathlib

/-!
# Terminal canvas (`src/tui/tui.h`, `src/tui/tui.cpp`) and the input dispatcher of
`src/tui/snake.cpp`: a shallow embedding

Modelling conventions.

* `size_t` fields and arguments are natural numbers, and a sum or product the source
  computes in `size_t` to print it or to size an array is reduced modulo `2^64` by
  `size_t`.  The loop counters of `full_display` and `lazy_display` have type `int` in
  the source; theorems about those loops carry `Canvas.IntSized`, which says that the
  dimensions fit an `int`.
* `uint8_t` colour channels are `Fin 256`.
* `std::string` is `String`; `"\033"` is `"\x1b"`.
* A heap array `Tile *` is the list of its elements.  A raw subscript inside the
  allocation is `List.getD` / `List.set`; a raw subscript outside the allocation is
  undefined behaviour in C++, and the theorems about whole grids carry `Canvas.WF`
  (both arrays hold `height*width` tiles), under which every subscript of the
  embedded functions is inside the allocation.
* A thrown `std::runtime_error` is `Except.error` of its message; in `resize`, which can
  also store outside its new arrays, the two failures are the cases of `ResizeFault`.
* `std::cout << output` is modelled by returning `output`.
-/

namespace TUI

/-! ## Colours and tiles -/

/-- 24-bit colour (`struct RGB`). -/
structure RGB where
  red : Fin 256
  green : Fin 256
  blue : Fin 256
deriving DecidableEq

/-- Equality of colours, `RGB::operator==`. -/
def RGB.eq (self other : RGB) : Bool :=
  (other.red == self.red) && (other.green == self.green) && (other.blue == self.blue)

/-- Inequality of colours, `RGB::operator!=`. -/
def RGB.ne (self other : RGB) : Bool :=
  !(self.eq other)

/-- A symbol with a foreground and a background colour (`struct Tile`). -/
structure Tile where
  symbol : String
  fore_color : RGB
  back_color : RGB
deriving DecidableEq

/-- The default tile, `Tile::Tile()`.  The initialiser `symbol("\0")` builds a `std::string` from a C string
whose first character is the terminator, that is, the empty string. -/
def Tile.default : Tile :=
  { symbol := "", fore_color := ⟨0, 0, 0⟩, back_color := ⟨0, 0, 0⟩ }

/-- A blank of one colour, `Tile::Tile(RGB color)`. -/
def Tile.ofColor (color : RGB) : Tile :=
  { symbol := " ", fore_color := ⟨0, 0, 0⟩, back_color := color }

/-- The conversion `Tile::operator std::string()`: the symbol behind its colour escapes.  The foreground
escape is left out when the symbol is a single space. -/
def Tile.toEscaped (t : Tile) : String :=
  let ss := ""
  let ss := if t.symbol != " " then
      ss ++ "\x1b[38;2;" ++ toString t.fore_color.red.val ++ ";"
         ++ toString t.fore_color.green.val ++ ";"
         ++ toString t.fore_color.blue.val ++ "m"
    else ss
  let ss := ss ++ "\x1b[48;2;" ++ toString t.back_color.red.val ++ ";"
         ++ toString t.back_color.green.val ++ ";"
         ++ toString t.back_color.blue.val ++ "m"
  ss ++ t.symbol

/-- The symbol without escapes, `Tile::raw_symbol()`. -/
def Tile.raw_symbol (t : Tile) : String :=
  t.symbol

/-! ## The canvas -/

/-- The state of `class Canvas`: dimensions, offset, the last image displayed (`prev_buffer`) and the
image to display next (`tile_buffer`). -/
structure Canvas where
  width : Nat
  height : Nat
  offset_x : Nat
  offset_y : Nat
  prev_buffer : List Tile
  tile_buffer : List Tile
deriving DecidableEq

/-- The value of an expression of type `size_t` whose mathematical value is `n`: unsigned
64-bit arithmetic wraps. -/
def size_t (n : Nat) : Nat :=
  n % 18446744073709551616

/-- An array `new Tile[n]`: `n` default-constructed tiles. -/
def newTiles (n : Nat) : List Tile :=
  List.replicate n Tile.default

/-- The constructor `Canvas::Canvas(width, height, x, y)`; the array size `height*width` is
computed in `size_t`. -/
def Canvas.mk4 (width height x y : Nat) : Canvas :=
  { width := width, height := height, offset_x := x, offset_y := y,
    prev_buffer := newTiles (size_t (height * width)),
    tile_buffer := newTiles (size_t (height * width)) }

/-- The constructor `Canvas::Canvas(width, height)`; the array size `height*width` is computed
in `size_t`. -/
def Canvas.mk2 (width height : Nat) : Canvas :=
  { width := width, height := height, offset_x := 0, offset_y := 0,
    prev_buffer := newTiles (size_t (height * width)),
    tile_buffer := newTiles (size_t (height * width)) }

/-- The getter `Canvas::get_width`. -/
def Canvas.get_width (c : Canvas) : Nat := c.width

/-- The getter `Canvas::get_height`. -/
def Canvas.get_height (c : Canvas) : Nat := c.height

/-- Both arrays hold `height*width` tiles, as the constructors allocate them when that product
is within `size_t`. -/
def Canvas.WF (c : Canvas) : Prop :=
  c.tile_buffer.length = c.height * c.width ∧ c.prev_buffer.length = c.height * c.width

instance (c : Canvas) : Decidable c.WF := by
  unfold Canvas.WF; infer_instance

/-- The dimensions fit the `int` loop counters of `full_display` and `lazy_display`. -/
def Canvas.IntSized (c : Canvas) : Prop :=
  c.width < 2147483648 ∧ c.height < 2147483648

instance (c : Canvas) : Decidable c.IntSized := by
  unfold Canvas.IntSized; infer_instance

/-- Every column number `offset_x + x + 1` of a cell, `x < width`, is below `2^64`, so that the
sum the drawing loops compute in `size_t` is the number itself. -/
def Canvas.ColumnsFit (c : Canvas) : Prop :=
  c.offset_x + c.width < 18446744073709551616

instance (c : Canvas) : Decidable c.ColumnsFit := by
  unfold Canvas.ColumnsFit; infer_instance

/-- The message of the `std::runtime_error` thrown by `Canvas::operator()`. -/
def Canvas.oob_message (c : Canvas) (x y : Nat) : String :=
  let ss := ""
  let ss := ss ++ "Canvas with dimensions ("
  let ss := ss ++ toString c.width
  let ss := ss.push ','
  let ss := ss ++ toString c.height
  let ss := ss ++ ") accessed out of bounds with coordinates ("
  let ss := ss ++ toString x
  let ss := ss.push ','
  let ss := ss ++ toString y
  ss.push ')'

/-- The accessor `Canvas::operator()(x, y)`: the position in `tile_buffer` of the tile the returned
reference denotes, or the thrown error.  The comparisons `x<0` and `y<0` of the source are
on unsigned values. -/
def Canvas.op_call (c : Canvas) (x y : Nat) : Except String Nat :=
  if decide (x < 0) || decide (x ≥ c.width) || decide (y < 0) || decide (y ≥ c.height) then
    Except.error (c.oob_message x y)
  else
    Except.ok (y * c.width + x)

/-- Reading through the reference: `canvas(x,y)` used as a value. -/
def Canvas.read (c : Canvas) (x y : Nat) : Except String Tile :=
  match c.op_call x y with
  | Except.error e => Except.error e
  | Except.ok i => Except.ok (c.tile_buffer.getD i Tile.default)

/-- Writing through the reference: `canvas(x,y) = t`.  The result is the outcome of the
statement together with the canvas after it. -/
def Canvas.assign (c : Canvas) (x y : Nat) (t : Tile) : Except String Unit × Canvas :=
  match c.op_call x y with
  | Except.error e => (Except.error e, c)
  | Except.ok i => (Except.ok (), { c with tile_buffer := c.tile_buffer.set i t })

/-- The ways `Canvas::resize` can fail: `(*this)(x,y)` throws its `std::runtime_error`, or a
store lands at `index`, outside a new array of `size` tiles, where C++ defines no
behaviour. -/
inductive ResizeFault where
  | thrown (what : String)
  | store_outside (index size : Nat)
deriving DecidableEq

/-- One step of the inner loop of `Canvas::resize`, lines 83-84: both new arrays receive
`(*this)(x,y)`, stored at `y*width+x` (computed in `size_t`) with `width` the new width. -/
def Canvas.resize_cell (c : Canvas) (width y : Nat) (bufs : List Tile × List Tile) (x : Nat) :
    Except ResizeFault (List Tile × List Tile) :=
  match c.read x y with
  | Except.error e => Except.error (ResizeFault.thrown e)
  | Except.ok t1 =>
    if size_t (y * width + x) < bufs.1.length then
      let new_tile_buffer := bufs.1.set (size_t (y * width + x)) t1
      match c.read x y with
      | Except.error e => Except.error (ResizeFault.thrown e)
      | Except.ok t2 =>
        if size_t (y * width + x) < bufs.2.length then
          Except.ok (new_tile_buffer, bufs.2.set (size_t (y * width + x)) t2)
        else Except.error (ResizeFault.store_outside (size_t (y * width + x)) bufs.2.length)
    else Except.error (ResizeFault.store_outside (size_t (y * width + x)) bufs.1.length)

/-- One step of the outer loop of `Canvas::resize`: the row `y`, for `x` from `0` up to
`x_limit`. -/
def Canvas.resize_row (c : Canvas) (width x_limit : Nat) (bufs : List Tile × List Tile)
    (y : Nat) : Except ResizeFault (List Tile × List Tile) :=
  (List.range x_limit).foldlM (c.resize_cell width y) bufs

/-- The method `Canvas::resize(width, height)`.  The parameters shadow the members; both limits
are computed from the widths, and the members `width` and `height` are not assigned.  When
`(*this)(x,y)` throws, the members are as before the call.  After a store outside the new
arrays nothing is known of the canvas; the second component is then the canvas before the
call and has no meaning. -/
def Canvas.resize (c : Canvas) (width height : Nat) : Except ResizeFault Unit × Canvas :=
  let new_tile_buffer := newTiles (size_t (height * width))
  let new_prev_buffer := newTiles (size_t (height * width))
  let x_limit := min c.width width
  let y_limit := min c.width width
  match (List.range y_limit).foldlM (c.resize_row width x_limit)
      (new_tile_buffer, new_prev_buffer) with
  | Except.error e => (Except.error e, c)
  | Except.ok bufs => (Except.ok (), { c with tile_buffer := bufs.1, prev_buffer := bufs.2 })

/-! ## Drawing

The drawing loops carry a list `drawn` next to the source's variables.  It is bookkeeping
for the statements below: every visit of a cell that appends to `output` records the cell
and the pieces appended for it, in order.  No other variable is computed from it. -/

/-- The pieces one cell contributes to `output`: its column move, its vertical move (empty when
none is written), whether the tile was written with its colour escapes, and the tile text. -/
structure Draw where
  x : Nat
  y : Nat
  column : String
  vertical : String
  escaped : Bool
  body : String
deriving DecidableEq

/-- The text a drawn cell contributes, in the order it is appended. -/
def Draw.text (d : Draw) : String :=
  d.column ++ d.vertical ++ d.body

/-- The cell of a record. -/
def Draw.cell (d : Draw) : Nat × Nat :=
  (d.x, d.y)

/-- The start of the output of the drawing methods: cursor save, then the move down by the
vertical offset when it is not zero. -/
def Canvas.prologue (c : Canvas) : String :=
  let output := ""
  let output := output ++ "\x1b[s"
  if c.offset_y ≠ 0 then output ++ ("\x1b[" ++ toString c.offset_y ++ "B") else output

/-- The variables of `Canvas::full_display` that its loops change. -/
structure FullState where
  output : String
  last_tile : Option Tile
  mismatch : Bool
  prev_buffer : List Tile
  drawn : List Draw
deriving DecidableEq

/-- The body of the inner loop of `Canvas::full_display`, lines 149-167. -/
def Canvas.full_cell (c : Canvas) (y : Nat) (st : FullState) (x : Nat) : FullState :=
  let index := y * c.width + x
  let column := "\x1b[" ++ toString (size_t (c.offset_x + x + 1)) ++ "G"
  let output := st.output ++ column
  let current_tile := c.tile_buffer.getD index Tile.default
  let mismatch := match st.last_tile with
    | some last =>
      (st.mismatch || last.fore_color.ne current_tile.fore_color)
        || last.back_color.ne current_tile.back_color
    | none => st.mismatch
  let body := if mismatch then current_tile.toEscaped else current_tile.raw_symbol
  { output := output ++ body,
    last_tile := some current_tile,
    mismatch := false,
    prev_buffer := st.prev_buffer.set index current_tile,
    drawn := st.drawn ++ [{ x := x, y := y, column := column, vertical := "",
                            escaped := mismatch, body := body }] }

/-- The body of the outer loop of `Canvas::full_display`, lines 147-171: the row `y`, scanned
from `x = width-1` down to `0`, then the colour reset and the line break. -/
def Canvas.full_row (c : Canvas) (st : FullState) (y : Nat) : FullState :=
  let st := { st with mismatch := true }
  let st := (List.range c.width).reverse.foldl (c.full_cell y) st
  { st with output := st.output ++ "\x1b[39m\x1b[49m" ++ "\r\n" }

/-- The state of `Canvas::full_display` when its loops are left. -/
def Canvas.full_run (c : Canvas) : FullState :=
  (List.range c.height).foldl c.full_row
    { output := c.prologue, last_tile := none, mismatch := false,
      prev_buffer := c.prev_buffer, drawn := [] }

/-- The method `Canvas::full_display()`: the canvas after the call and the string written to the
terminal.  (`mismatch` is uninitialised before the first row sets it; the value given to it
in `full_run` is never read.) -/
def Canvas.full_display (c : Canvas) : Canvas × String :=
  let st := c.full_run
  ({ c with prev_buffer := st.prev_buffer }, st.output ++ "\x1b[u")

/-- The variables of `Canvas::lazy_display` that its loops change. -/
structure LazyState where
  output : String
  last_tile : Option Tile
  last_y : Int
  last_x : Int
  first : Bool
  prev_buffer : List Tile
  drawn : List Draw
deriving DecidableEq

/-- The test of `Canvas::lazy_display`, lines 212-214: the tile last displayed and the tile to
display differ in foreground, background or symbol. -/
def touched (prev_state next_state : Tile) : Bool :=
  let touched := prev_state.fore_color.ne next_state.fore_color
  let touched := touched || prev_state.back_color.ne next_state.back_color
  touched || (prev_state.symbol != next_state.symbol)

/-- The body of the inner loop of `Canvas::lazy_display`, lines 204-260. -/
def Canvas.lazy_cell (c : Canvas) (y : Nat) (st : LazyState) (x : Nat) : LazyState :=
  let prev_state := st.prev_buffer.getD (y * c.width + x) Tile.default
  let next_state := c.tile_buffer.getD (y * c.width + x) Tile.default
  if touched prev_state next_state then
    let column := "\x1b[" ++ toString (size_t (c.offset_x + x + 1)) ++ "G"
    let output := st.output ++ column
    let delta : Int := (y : Int) - st.last_y
    let trailer : Char := if delta > 0 then 'B' else 'A'
    let vertical := if (y : Int) ≠ st.last_y
      then ("\x1b[" ++ toString delta.natAbs).push trailer else ""
    let output := if (y : Int) ≠ st.last_y then output ++ vertical else output
    let mismatch := match st.last_tile with
      | some last =>
        (st.first || last.fore_color.ne next_state.fore_color)
          || last.back_color.ne next_state.back_color
      | none => st.first
    let body := if mismatch then next_state.toEscaped else next_state.raw_symbol
    { output := output ++ body,
      last_tile := some next_state,
      last_y := (y : Int),
      last_x := (x : Int),
      first := false,
      prev_buffer := st.prev_buffer.set (y * c.width + x) next_state,
      drawn := st.drawn ++ [{ x := x, y := y, column := column, vertical := vertical,
                              escaped := mismatch, body := body }] }
  else st

/-- The body of the outer loop of `Canvas::lazy_display`: the row `y`, scanned from
`x = width-1` down to `0`. -/
def Canvas.lazy_row (c : Canvas) (st : LazyState) (y : Nat) : LazyState :=
  (List.range c.width).reverse.foldl (c.lazy_cell y) st

/-- The variables of `Canvas::lazy_display` before its loops, lines 182-197. -/
def Canvas.lazy_init (c : Canvas) : LazyState :=
  { output := c.prologue, last_tile := none, last_y := 0, last_x := -1, first := true,
    prev_buffer := c.prev_buffer, drawn := [] }

/-- The state of `Canvas::lazy_display` when its loops are left. -/
def Canvas.lazy_run (c : Canvas) : LazyState :=
  (List.range c.height).foldl c.lazy_row c.lazy_init

/-- The method `Canvas::lazy_display()`: the canvas after the call and the string written to the
terminal. -/
def Canvas.lazy_display (c : Canvas) : Canvas × String :=
  let st := c.lazy_run
  ({ c with prev_buffer := st.prev_buffer }, st.output ++ "\x1b[u" ++ "\x1b[39m\x1b[49m")

/-- The cells `Canvas::lazy_display()` draws, in the order it draws them. -/
def Canvas.lazy_drawn (c : Canvas) : List Draw :=
  c.lazy_run.drawn

/-- The order in which both drawing loops visit the cells `(x, y)`: rows from the top, each
row from its right end. -/
def scan (width height : Nat) : List (Nat × Nat) :=
  (List.range height).flatMap (fun y => (List.range width).reverse.map (fun x => (x, y)))

/-- The tile of the current grid at `(x, y)`. -/
def Canvas.cur (c : Canvas) (x y : Nat) : Tile :=
  c.tile_buffer.getD (y * c.width + x) Tile.default

/-- The tile of the previous grid at `(x, y)`. -/
def Canvas.prev (c : Canvas) (x y : Nat) : Tile :=
  c.prev_buffer.getD (y * c.width + x) Tile.default

/-- The body of the inner loop of `Canvas::lazy_display` at the cell `p = (x, y)`. -/
def Canvas.lazy_step (c : Canvas) (st : LazyState) (p : Nat × Nat) : LazyState :=
  c.lazy_cell p.2 st p.1

/-! ## A terminal reading the output

The repository writes escape sequences and has no terminal of its own.  The definitions of
this section are the reading of those sequences that the colour statements use: which
foreground and background are active when a character is written. -/

/-- The colour state of a terminal reading a string: the active foreground and background
(`none` is the terminal default), the progress through an escape sequence, and the characters
written so far, each with the colours active when it was written. -/
structure Terminal where
  fg : Option RGB
  bg : Option RGB
  mode : Nat
  params : List Nat
  cur : Nat
  written : List (Char × Option RGB × Option RGB)
deriving DecidableEq

/-- The effect of a finished sequence `ESC[ps m`: `38;2;r;g;b` sets the foreground,
`48;2;r;g;b` the background, `39` and `49` return them to the default. -/
def Terminal.sgr (t : Terminal) (ps : List Nat) : Terminal :=
  match ps with
  | [38, 2, r, g, b] => { t with fg := some ⟨Fin.ofNat r, Fin.ofNat g, Fin.ofNat b⟩ }
  | [48, 2, r, g, b] => { t with bg := some ⟨Fin.ofNat r, Fin.ofNat g, Fin.ofNat b⟩ }
  | [39] => { t with fg := none }
  | [49] => { t with bg := none }
  | _ => t

/-- The terminal reads one character.  Mode `0` is plain text, `1` follows `ESC`, `2` is inside
`ESC[`.  Cursor moves change no colour; carriage return and line feed write nothing. -/
def Terminal.feed (t : Terminal) (ch : Char) : Terminal :=
  if t.mode = 0 then
    if ch = '\x1b' then { t with mode := 1 }
    else if ch = '\r' ∨ ch = '\n' then t
    else { t with written := t.written ++ [(ch, t.fg, t.bg)] }
  else if t.mode = 1 then
    if ch = '[' then { t with mode := 2, params := [], cur := 0 } else { t with mode := 0 }
  else
    if ch.isDigit then { t with cur := t.cur * 10 + (ch.toNat - 48) }
    else if ch = ';' then { t with params := t.params ++ [t.cur], cur := 0 }
    else if ch = 'm' then
      { Terminal.sgr t (t.params ++ [t.cur]) with mode := 0, params := [], cur := 0 }
    else { t with mode := 0, params := [], cur := 0 }

/-- The characters a terminal starting at its default colours writes while reading `s`, each
with the foreground and background active at that moment. -/
def Terminal.run (s : String) : List (Char × Option RGB × Option RGB) :=
  (s.toList.foldl Terminal.feed
    { fg := none, bg := none, mode := 0, params := [], cur := 0, written := [] }).written

/-- A 2×1 canvas displayed once while empty, which then receives a space at
`(1,0)` and `X` at `(0,0)`, both with foreground `(255,0,0)` and background `(0,0,0)`. -/
def space_then_letter : Canvas :=
  (((Canvas.mk2 2 1).full_display.1.assign 1 0 ⟨" ", ⟨255, 0, 0⟩, ⟨0, 0, 0⟩⟩).2.assign 0 0
    ⟨"X", ⟨255, 0, 0⟩, ⟨0, 0, 0⟩⟩).2

/-! ## Blanking and moving -/

/-- The body of the outer loop of `Canvas::hide`, lines 123-129: the column move to the left
edge, `width` spaces, and the line break. -/
def Canvas.hide_row (c : Canvas) (output : String) (_y : Nat) : String :=
  let output := output ++ ("\x1b[" ++ toString (size_t (c.offset_x + 1)) ++ "G")
  let output := (List.range c.width).foldl (fun out _x => out.push ' ') output
  output ++ "\r\n"

/-- The method `Canvas::hide()`: the canvas after the call, which no statement of the method
assigns, and the string written to the terminal. -/
def Canvas.hide (c : Canvas) : Canvas × String :=
  let output := c.prologue
  let output := output ++ "\x1b[39m\x1b[49m"
  let output := (List.range c.height).foldl c.hide_row output
  (c, output ++ "\x1b[u")

/-- The method `Canvas::reposition(x, y)`: `hide()`, the two assignments, `full_display()`.  The
string written to the terminal is what the two calls write, in that order. -/
def Canvas.reposition (c : Canvas) (x y : Nat) : Canvas × String :=
  let r1 := c.hide
  let c2 := { r1.1 with offset_x := x, offset_y := y }
  let r2 := c2.full_display
  (r2.1, r1.2 ++ r2.2)

/-! ## Vocabulary of the statements about the output -/

/-- The row `hide` writes for each line of the canvas. -/
def Canvas.blank_row (c : Canvas) : String :=
  "\x1b[" ++ toString (size_t (c.offset_x + 1)) ++ "G" ++ String.mk (List.replicate c.width ' ')
    ++ "\r\n"

/-- A terminal between escape sequences, at its default colours, having written `w`. -/
def Terminal.idle (w : List (Char × Option RGB × Option RGB)) : Terminal :=
  { fg := none, bg := none, mode := 0, params := [], cur := 0, written := w }

/-- The text of a move down by `n` rows as the drawing methods write it: nothing when `n` is
zero, `ESC[nB` otherwise. -/
def down_move (n : Nat) : String :=
  if n ≠ 0 then "\x1b[" ++ toString n ++ "B" else ""

/-- The row differences of a sequence of rows: each row minus the row before it, the first
row minus `last`. -/
def row_deltas : Nat → List Nat → List Nat
  | _, [] => []
  | last, y :: ys => (y - last) :: row_deltas y ys

/-- Whether two tiles differ in foreground or background, as the drawing loops test it. -/
def colour_differs (last next : Tile) : Bool :=
  last.fore_color.ne next.fore_color || last.back_color.ne next.back_color

/-- What the variables of `lazy_display` record about the cells drawn so far. -/
def Canvas.LazyInv (c : Canvas) (st : LazyState) : Prop :=
  (st.first = true ↔ st.drawn = []) ∧
  st.last_tile = st.drawn.getLast?.map (fun d => c.cur d.x d.y) ∧
  st.last_y = (((st.drawn.map Draw.y).getLastD 0 : Nat) : Int) ∧
  (∀ d, st.drawn.head? = some d → d.escaped = true) ∧
  List.Chain' (fun d1 d2 => d2.escaped = colour_differs (c.cur d1.x d1.y) (c.cur d2.x d2.y))
    st.drawn ∧
  (∀ d ∈ st.drawn, d.body = if d.escaped then (c.cur d.x d.y).toEscaped
    else (c.cur d.x d.y).raw_symbol) ∧
  st.drawn.map Draw.vertical = (row_deltas 0 (st.drawn.map Draw.y)).map down_move ∧
  List.Chain' (fun a b => a ≤ b) (st.drawn.map Draw.y)

/-- The 3×2 canvas of the scenario: freshly constructed, then `X` with foreground `(255,0,0)`
and background `(0,0,0)` assigned at `(2,1)`. -/
def scenario_canvas : Canvas :=
  ((Canvas.mk2 3 2).assign 2 1 ⟨"X", ⟨255, 0, 0⟩, ⟨0, 0, 0⟩⟩).2

/-! ## Terminal modes (`class Input`)

`termios` and the flag constants come from `<termios.h>`, which is not part of the
repository: the flag words are natural numbers below `2^32` (`tcflag_t`), the remaining
members of `termios` are kept as one value, and the constants are parameters.  `tcgetattr` and
`tcsetattr` are taken to succeed, as the source does by ignoring their results.  The
registrations made by `atexit` and `signal` are outside the state modelled here. -/

/-- The members of `struct termios` that `Input::raw_mode` touches, and the rest. -/
structure Termios where
  c_iflag : Nat
  c_oflag : Nat
  c_cflag : Nat
  c_lflag : Nat
  other : List Nat
deriving DecidableEq

/-- The flag constants of `<termios.h>` named in `Input::raw_mode`. -/
structure TermiosFlags where
  BRKINT : Nat
  ICRNL : Nat
  INPCK : Nat
  ISTRIP : Nat
  IXON : Nat
  OPOST : Nat
  CS8 : Nat
  ECHO : Nat
  ICANON : Nat
  IEXTEN : Nat
deriving DecidableEq

/-- The terminal settings in force and the static member `Input::original_termios`. -/
structure InputState where
  applied : Termios
  original_termios : Termios
deriving DecidableEq

/-- The statement `flags &= ~(mask)` on a 32-bit flag word. -/
def clear_flags (flags mask : Nat) : Nat :=
  flags &&& (4294967295 ^^^ mask)

/-- The function `Input::cooked_mode()`: `tcsetattr` with the saved settings. -/
def Input.cooked_mode (s : InputState) : InputState :=
  { s with applied := s.original_termios }

/-- The function `Input::raw_mode()`: `tcgetattr` into the saved settings, then `tcsetattr`
with the copy whose flags are changed as in lines 305-313. -/
def Input.raw_mode (k : TermiosFlags) (s : InputState) : InputState :=
  let original_termios := s.applied
  let raw_termios := original_termios
  let raw_termios := { raw_termios with
    c_iflag := clear_flags raw_termios.c_iflag
      (k.BRKINT ||| k.ICRNL ||| k.INPCK ||| k.ISTRIP ||| k.IXON) }
  let raw_termios := { raw_termios with c_oflag := clear_flags raw_termios.c_oflag k.OPOST }
  let raw_termios := { raw_termios with c_cflag := raw_termios.c_cflag ||| k.CS8 }
  let raw_termios := { raw_termios with
    c_lflag := clear_flags raw_termios.c_lflag (k.ECHO ||| k.ICANON ||| k.IEXTEN) }
  { applied := raw_termios, original_termios := original_termios }

/-- The flag constants of `<termios.h>` on Linux, in decimal. -/
def linux_flags : TermiosFlags :=
  { BRKINT := 2, ICRNL := 256, INPCK := 16, ISTRIP := 32, IXON := 1024, OPOST := 1,
    CS8 := 48, ECHO := 8, ICANON := 2, IEXTEN := 32768 }

/-! ## The input dispatcher (`handle_input`, `src/tui/snake.cpp`)

The two variables the function reaches through its pointer arguments are the state; the
characters `std::getchar()` returns are the input. -/

/-- The variables `*done` and `*dir` shared with the render loop. -/
structure InputShared where
  done : Bool
  dir : Char
deriving DecidableEq

/-- The `switch` of `handle_input`, lines 15-33, on the character `c` just read. -/
def handle_input_step (s : InputShared) (c : Char) : InputShared :=
  if c = 'Q' ∨ c = 'q' then { s with done := true }
  else if c = 'W' ∨ c = 'w' then { s with dir := 'w' }
  else if c = 'A' ∨ c = 'a' then { s with dir := 'a' }
  else if c = 'S' ∨ c = 's' then { s with dir := 's' }
  else if c = 'D' ∨ c = 'd' then { s with dir := 'd' }
  else s

/-- The loop of `handle_input`, lines 13-34, on the characters that arrive: while `*done` is
false, read a character and dispatch on it.  The state is returned when the loop is left or
when no character is left to read. -/
def handle_input : List Char → InputShared → InputShared
  | [], s => s
  | c :: cs, s => if s.done then s else handle_input cs (handle_input_step s c)

/-! ## Theorems -/

theorem size_t_of_lt (n : Nat) (h : n < 18446744073709551616) : size_t n = n :=
  Nat.mod_eq_of_lt h

theorem RGB.eq_iff (a b : RGB) : a.eq b = true ↔ a = b := by
  cases a; cases b
  simp only [RGB.eq, Bool.and_eq_true, beq_iff_eq, RGB.mk.injEq]
  constructor
  · rintro ⟨⟨h1, h2⟩, h3⟩; exact ⟨h1.symm, h2.symm, h3.symm⟩
  · rintro ⟨h1, h2, h3⟩; exact ⟨⟨h1.symm, h2.symm⟩, h3.symm⟩

theorem RGB.ne_eq_false_iff (a b : RGB) : a.ne b = false ↔ a = b := by
  simp [RGB.ne, RGB.eq_iff]

theorem RGB.ne_eq_true_iff (a b : RGB) : a.ne b = true ↔ a ≠ b := by
  simp [RGB.ne, ← RGB.eq_iff]

theorem touched_eq_false_iff (p n : Tile) : touched p n = false ↔ p = n := by
  cases p; cases n
  simp [touched, RGB.ne_eq_false_iff, Tile.mk.injEq]
  tauto

theorem touched_eq_true_iff (p n : Tile) :
    touched p n = true ↔
      (n.symbol ≠ p.symbol ∨ n.fore_color ≠ p.fore_color ∨ n.back_color ≠ p.back_color) := by
  cases p; cases n
  simp [touched, RGB.ne_eq_true_iff]
  tauto

theorem op_call_ok (c : Canvas) (x y : Nat) (hx : x < c.width) (hy : y < c.height) :
    c.op_call x y = Except.ok (y * c.width + x) := by
  simp [Canvas.op_call, hx, hy]

theorem op_call_error (c : Canvas) (x y : Nat) (h : x ≥ c.width ∨ y ≥ c.height) :
    c.op_call x y = Except.error (c.oob_message x y) := by
  unfold Canvas.op_call
  rcases h with h | h
  · simp [h]
  · simp [h]

theorem index_lt (w h x y : Nat) (hx : x < w) (hy : y < h) : y * w + x < h * w := by
  calc y * w + x < y * w + w := by omega
    _ = (y + 1) * w := by ring
    _ ≤ h * w := Nat.mul_le_mul_right w hy

theorem oob_message_eq (c : Canvas) (x y : Nat) :
    c.oob_message x y =
      s!"Canvas with dimensions ({c.width},{c.height}) accessed out of bounds with coordinates ({x},{y})" := by
  simp only [Canvas.oob_message]
  apply String.ext
  simp [String.data_append, String.data_push]
  rfl

/-- C6. On a canvas whose arrays hold `height*width` tiles, for every tile `t` and every
`(x,y)` with `x < width` and `y < height`, the assignment `canvas(x,y) = t` succeeds and
reading `canvas(x,y)` afterwards returns `t`. -/
theorem assign_then_read (c : Canvas) (t : Tile) (x y : Nat) (hwf : c.WF)
    (hx : x < c.width) (hy : y < c.height) :
    (c.assign x y t).1 = Except.ok () ∧ (c.assign x y t).2.read x y = Except.ok t := by
  have hlt : y * c.width + x < c.tile_buffer.length := by
    rw [hwf.1]; exact index_lt _ _ _ _ hx hy
  simp [Canvas.assign, Canvas.read, op_call_ok c x y hx hy]
  have h2 : ({ c with tile_buffer := c.tile_buffer.set (y * c.width + x) t } : Canvas).op_call x y
      = Except.ok (y * c.width + x) := op_call_ok _ x y hx hy
  simp [h2, hlt]

/-- C6, at a 2×2 canvas, cell `(1,1)`. -/
theorem assign_then_read_witness :
    (Canvas.mk2 2 2).WF ∧ 1 < (Canvas.mk2 2 2).width ∧ 1 < (Canvas.mk2 2 2).height ∧
    ((Canvas.mk2 2 2).assign 1 1 ⟨"X", ⟨255, 0, 0⟩, ⟨0, 0, 0⟩⟩).1 = Except.ok () ∧
    ((Canvas.mk2 2 2).assign 1 1 ⟨"X", ⟨255, 0, 0⟩, ⟨0, 0, 0⟩⟩).2.read 1 1
      = Except.ok ⟨"X", ⟨255, 0, 0⟩, ⟨0, 0, 0⟩⟩ :=
  ⟨by decide, by decide, by decide,
   assign_then_read (Canvas.mk2 2 2) ⟨"X", ⟨255, 0, 0⟩, ⟨0, 0, 0⟩⟩ 1 1 (by decide) (by decide)
    (by decide)⟩

/-- C7. The access `canvas(x,y)` fails exactly when `x ≥ width` or `y ≥ height`; it then throws
the message "Canvas with dimensions (W,H) accessed out of bounds with coordinates (x,y)" with
the four numbers in decimal, whether the reference was to be read or assigned, and the canvas
after the failed assignment is the canvas before it. -/
theorem op_call_fails_iff (c : Canvas) (x y : Nat) :
    ((∃ e, c.op_call x y = Except.error e) ↔ (x ≥ c.width ∨ y ≥ c.height)) ∧
    ((x ≥ c.width ∨ y ≥ c.height) →
      c.op_call x y = Except.error
        s!"Canvas with dimensions ({c.width},{c.height}) accessed out of bounds with coordinates ({x},{y})" ∧
      c.read x y = Except.error
        s!"Canvas with dimensions ({c.width},{c.height}) accessed out of bounds with coordinates ({x},{y})" ∧
      ∀ t : Tile, c.assign x y t = (Except.error
        s!"Canvas with dimensions ({c.width},{c.height}) accessed out of bounds with coordinates ({x},{y})", c)) := by
  refine ⟨⟨?_, fun h => ⟨_, op_call_error c x y h⟩⟩, fun h => ?_⟩
  · rintro ⟨e, he⟩
    by_contra hn
    push_neg at hn
    rw [op_call_ok c x y hn.1 hn.2] at he
    cases he
  · have h1 := op_call_error c x y h
    rw [oob_message_eq] at h1
    refine ⟨h1, ?_, fun t => ?_⟩
    · simp only [Canvas.read, h1]
    · simp only [Canvas.assign, h1]

/-- C7, at a 3×2 canvas accessed at `(3,0)`. -/
theorem op_call_fails_iff_witness :
    (3 ≥ (Canvas.mk2 3 2).width ∨ 0 ≥ (Canvas.mk2 3 2).height) ∧
    (Canvas.mk2 3 2).op_call 3 0 = Except.error
      "Canvas with dimensions (3,2) accessed out of bounds with coordinates (3,0)" ∧
    (Canvas.mk2 3 2).assign 3 0 (Tile.ofColor ⟨1, 2, 3⟩) = (Except.error
      "Canvas with dimensions (3,2) accessed out of bounds with coordinates (3,0)",
      Canvas.mk2 3 2) :=
  ⟨by decide,
   ((op_call_fails_iff (Canvas.mk2 3 2) 3 0).2 (by decide)).1,
   ((op_call_fails_iff (Canvas.mk2 3 2) 3 0).2 (by decide)).2.2 (Tile.ofColor ⟨1, 2, 3⟩)⟩

theorem foldl_rows {σ : Type} (g : Nat → σ → Nat → σ) (w : Nat) (ys : List Nat) (s : σ) :
    ys.foldl (fun st y => (List.range w).reverse.foldl (g y) st) s
      = (ys.flatMap (fun y => (List.range w).reverse.map (fun x => (x, y)))).foldl
          (fun st p => g p.2 st p.1) s := by
  induction ys generalizing s with
  | nil => rfl
  | cons y ys ih =>
    simp only [List.foldl_cons, List.flatMap_cons, List.foldl_append, List.foldl_map]
    exact ih _

theorem lazy_run_eq (c : Canvas) :
    c.lazy_run = (scan c.width c.height).foldl c.lazy_step c.lazy_init := by
  unfold Canvas.lazy_run scan
  exact foldl_rows (fun y st x => c.lazy_cell y st x) c.width (List.range c.height) _

theorem mem_scan (w h x y : Nat) : (x, y) ∈ scan w h ↔ x < w ∧ y < h := by
  simp only [scan, List.mem_flatMap, List.mem_map, List.mem_reverse, List.mem_range,
    Prod.mk.injEq]
  constructor
  · rintro ⟨y1, hy1, x1, hx1, rfl, rfl⟩
    exact ⟨hx1, hy1⟩
  · rintro ⟨hx, hy⟩
    exact ⟨y, hy, x, hx, rfl, rfl⟩

theorem index_inj (w x y x2 y2 : Nat) (hx : x < w) (hx2 : x2 < w)
    (h : y * w + x = y2 * w + x2) : x = x2 ∧ y = y2 := by
  have h1 : (y * w + x) % w = (y2 * w + x2) % w := by rw [h]
  have h2 : (y * w + x) / w = (y2 * w + x2) / w := by rw [h]
  have hw : 0 < w := by omega
  rw [Nat.mul_comm y w, Nat.mul_comm y2 w] at h1 h2
  rw [Nat.mul_add_mod, Nat.mul_add_mod, Nat.mod_eq_of_lt hx, Nat.mod_eq_of_lt hx2] at h1
  rw [Nat.mul_add_div hw, Nat.mul_add_div hw, Nat.div_eq_of_lt hx, Nat.div_eq_of_lt hx2] at h2
  exact ⟨h1, by omega⟩

theorem scan_nodup (w h : Nat) : (scan w h).Nodup := by
  unfold scan
  rw [List.nodup_flatMap]
  refine ⟨fun y _ => ?_, ?_⟩
  · refine List.Nodup.map (fun a b hab => ?_) (List.nodup_reverse.mpr (List.nodup_range w))
    exact (Prod.mk.inj hab).1
  · refine List.Pairwise.imp_of_mem ?_ (List.nodup_range h)
    intro a b _ _ hab
    simp only [Function.onFun, List.Disjoint, List.mem_map, List.mem_reverse, List.mem_range]
    rintro ⟨x, y⟩ ⟨x1, _, h1⟩ ⟨x2, _, h2⟩
    exact hab (((Prod.mk.inj h1).2).trans ((Prod.mk.inj h2).2).symm)

theorem scan_pairwise (w h : Nat) :
    (scan w h).Pairwise (fun p q => p.2 * w + p.1 ≠ q.2 * w + q.1) := by
  refine List.Pairwise.imp_of_mem ?_ (scan_nodup w h)
  rintro ⟨x, y⟩ ⟨x2, y2⟩ hp hq hne heq
  rw [mem_scan] at hp hq
  obtain ⟨h1, h2⟩ := index_inj w x y x2 y2 hp.1 hq.1 heq
  exact hne (by rw [h1, h2])

theorem getD_set (l : List Tile) (i j : Nat) (a d : Tile) :
    (l.set i a).getD j d = if i = j ∧ i < l.length then a else l.getD j d := by
  simp only [List.getD_eq_getElem?_getD, List.getElem?_set]
  by_cases h : i = j
  · subst h
    by_cases h2 : i < l.length
    · simp [h2]
    · simp [h2, List.getElem?_eq_none (Nat.le_of_not_lt h2)]
  · simp [h]

theorem join_nil : String.join [] = "" := rfl

theorem foldl_append_string (l : List String) (acc : String) :
    l.foldl (fun r s => r ++ s) acc = acc ++ l.foldl (fun r s => r ++ s) "" := by
  induction l generalizing acc with
  | nil => simp
  | cons a l ih =>
    simp only [List.foldl_cons]
    rw [ih (acc ++ a), ih ("" ++ a), String.empty_append, String.append_assoc]

theorem join_cons (a : String) (l : List String) : String.join (a :: l) = a ++ String.join l := by
  unfold String.join
  simp only [List.foldl_cons]
  rw [foldl_append_string, String.empty_append]

theorem lazy_step_prev (c : Canvas) (st : LazyState) (p : Nat × Nat) :
    (c.lazy_step st p).prev_buffer =
      if touched (st.prev_buffer.getD (p.2 * c.width + p.1) Tile.default)
          (c.tile_buffer.getD (p.2 * c.width + p.1) Tile.default)
      then st.prev_buffer.set (p.2 * c.width + p.1)
          (c.tile_buffer.getD (p.2 * c.width + p.1) Tile.default)
      else st.prev_buffer := by
  by_cases h : touched (st.prev_buffer.getD (p.2 * c.width + p.1) Tile.default)
      (c.tile_buffer.getD (p.2 * c.width + p.1) Tile.default) = true
  · simp only [Canvas.lazy_step, Canvas.lazy_cell, h, if_true]
  · simp only [Canvas.lazy_step, Canvas.lazy_cell, h, if_false, Bool.false_eq_true]

theorem lazy_step_untouched (c : Canvas) (st : LazyState) (p : Nat × Nat)
    (h : touched (st.prev_buffer.getD (p.2 * c.width + p.1) Tile.default)
          (c.tile_buffer.getD (p.2 * c.width + p.1) Tile.default) = false) :
    c.lazy_step st p = st := by
  simp only [Canvas.lazy_step, Canvas.lazy_cell, h, if_false, Bool.false_eq_true]

theorem toEscaped_ends (t : Tile) : ∃ pre, t.toEscaped = pre ++ t.symbol := by
  unfold Tile.toEscaped
  exact ⟨_, rfl⟩

theorem lazy_step_touched (c : Canvas) (st : LazyState) (p : Nat × Nat)
    (h : touched (st.prev_buffer.getD (p.2 * c.width + p.1) Tile.default)
          (c.tile_buffer.getD (p.2 * c.width + p.1) Tile.default) = true) :
    ∃ d : Draw, (c.lazy_step st p).drawn = st.drawn ++ [d] ∧ d.cell = p ∧
      (c.lazy_step st p).output = st.output ++ d.text ∧
      d.column = "\x1b[" ++ toString (size_t (c.offset_x + d.x + 1)) ++ "G" ∧
      ∃ pre, d.body = pre ++ (c.cur d.x d.y).symbol := by
  unfold Canvas.lazy_step Canvas.lazy_cell
  simp only [h, if_true]
  refine ⟨_, rfl, rfl, ?_, rfl, ?_⟩
  · simp only [Draw.text]
    by_cases hy : (p.2 : Int) ≠ st.last_y
    · simp only [hy, if_true, ne_eq, not_false_eq_true, String.append_assoc]
    · simp only [hy, if_false, ne_eq, not_false_eq_true, String.append_assoc,
        String.empty_append]
  · simp only [Canvas.cur]
    split
    · exact toEscaped_ends _
    · exact ⟨"", by simp [Tile.raw_symbol]⟩

theorem lazy_fold_drawn (c : Canvas) (l : List (Nat × Nat))
    (hl : l.Pairwise (fun p q => p.2 * c.width + p.1 ≠ q.2 * c.width + q.1))
    (st : LazyState) :
    ∃ ds : List Draw, (l.foldl c.lazy_step st).drawn = st.drawn ++ ds ∧
      ds.map Draw.cell = l.filter (fun p =>
        touched (st.prev_buffer.getD (p.2 * c.width + p.1) Tile.default)
          (c.tile_buffer.getD (p.2 * c.width + p.1) Tile.default)) ∧
      (l.foldl c.lazy_step st).output = st.output ++ String.join (ds.map Draw.text) ∧
      ∀ d ∈ ds, d.column = "\x1b[" ++ toString (size_t (c.offset_x + d.x + 1)) ++ "G" ∧
        ∃ pre, d.body = pre ++ (c.cur d.x d.y).symbol := by
  induction l generalizing st with
  | nil => exact ⟨[], by simp, by simp, by simp [join_nil], by simp⟩
  | cons p l ih =>
    rw [List.pairwise_cons] at hl
    obtain ⟨hp, hl⟩ := hl
    obtain ⟨ds, h1, h2, h3, h4⟩ := ih hl (c.lazy_step st p)
    have hcongr : l.filter (fun q =>
          touched ((c.lazy_step st p).prev_buffer.getD (q.2 * c.width + q.1) Tile.default)
            (c.tile_buffer.getD (q.2 * c.width + q.1) Tile.default))
        = l.filter (fun q =>
          touched (st.prev_buffer.getD (q.2 * c.width + q.1) Tile.default)
            (c.tile_buffer.getD (q.2 * c.width + q.1) Tile.default)) := by
      apply List.filter_congr
      intro q hq
      rw [lazy_step_prev]
      split
      · rw [getD_set, if_neg]
        rintro ⟨heq, _⟩
        exact hp q hq heq
      · rfl
    rw [hcongr] at h2
    simp only [List.foldl_cons]
    by_cases ht : touched (st.prev_buffer.getD (p.2 * c.width + p.1) Tile.default)
        (c.tile_buffer.getD (p.2 * c.width + p.1) Tile.default) = true
    · obtain ⟨d, hd1, hd2, hd3, hd4⟩ := lazy_step_touched c st p ht
      refine ⟨d :: ds, ?_, ?_, ?_, ?_⟩
      · rw [h1, hd1, List.append_assoc]; rfl
      · rw [List.filter_cons, if_pos ht, List.map_cons, hd2, h2]
      · rw [h3, hd3, List.map_cons, join_cons, String.append_assoc]
      · intro e he
        rcases List.mem_cons.mp he with rfl | he
        · exact hd4
        · exact h4 e he
    · have ht2 : touched (st.prev_buffer.getD (p.2 * c.width + p.1) Tile.default)
        (c.tile_buffer.getD (p.2 * c.width + p.1) Tile.default) = false := by
        simpa using ht
      have hst := lazy_step_untouched c st p ht2
      rw [hst]
      rw [hst] at h1 h3
      refine ⟨ds, h1, ?_, h3, h4⟩
      rw [List.filter_cons, if_neg ht, h2]

theorem lazy_fold_prev (c : Canvas) (l : List (Nat × Nat)) (st : LazyState) :
    (l.foldl c.lazy_step st).prev_buffer.length = st.prev_buffer.length ∧
    (∀ i, st.prev_buffer.getD i Tile.default = c.tile_buffer.getD i Tile.default →
      (l.foldl c.lazy_step st).prev_buffer.getD i Tile.default
        = c.tile_buffer.getD i Tile.default) ∧
    (∀ p ∈ l, p.2 * c.width + p.1 < st.prev_buffer.length →
      (l.foldl c.lazy_step st).prev_buffer.getD (p.2 * c.width + p.1) Tile.default
        = c.tile_buffer.getD (p.2 * c.width + p.1) Tile.default) := by
  induction l generalizing st with
  | nil => simp
  | cons p l ih =>
    obtain ⟨h1, h2, h3⟩ := ih (c.lazy_step st p)
    have hlen : (c.lazy_step st p).prev_buffer.length = st.prev_buffer.length := by
      rw [lazy_step_prev]; split <;> simp
    have hstable : ∀ i, st.prev_buffer.getD i Tile.default = c.tile_buffer.getD i Tile.default →
        (c.lazy_step st p).prev_buffer.getD i Tile.default
          = c.tile_buffer.getD i Tile.default := by
      intro i hi
      rw [lazy_step_prev]
      split
      · rw [getD_set]
        split
        · next hc => rw [hc.1]
        · exact hi
      · exact hi
    simp only [List.foldl_cons]
    refine ⟨h1.trans hlen, fun i hi => h2 i (hstable i hi), ?_⟩
    intro q hq hlt
    rcases List.mem_cons.mp hq with rfl | hq
    · apply h2
      rw [lazy_step_prev]
      split
      · rw [getD_set, if_pos ⟨rfl, hlt⟩]
      · next hnt =>
        have hf : touched (st.prev_buffer.getD (q.2 * c.width + q.1) Tile.default)
            (c.tile_buffer.getD (q.2 * c.width + q.1) Tile.default) = false := by
          simpa using hnt
        exact (touched_eq_false_iff _ _).mp hf
    · exact h3 q hq (by rw [hlen]; exact hlt)

theorem lazy_fold_untouched (c : Canvas) (l : List (Nat × Nat)) (st : LazyState)
    (h : ∀ p ∈ l, touched (st.prev_buffer.getD (p.2 * c.width + p.1) Tile.default)
          (c.tile_buffer.getD (p.2 * c.width + p.1) Tile.default) = false) :
    l.foldl c.lazy_step st = st := by
  induction l with
  | nil => rfl
  | cons p l ih =>
    rw [List.foldl_cons, lazy_step_untouched c st p (h p (List.mem_cons_self p l))]
    exact ih (fun q hq => h q (List.mem_cons_of_mem p hq))

theorem full_cell_prev (c : Canvas) (y : Nat) (st : FullState) (x : Nat) :
    (c.full_cell y st x).prev_buffer =
      st.prev_buffer.set (y * c.width + x) (c.tile_buffer.getD (y * c.width + x) Tile.default) :=
  rfl

theorem full_cells_prev (c : Canvas) (y : Nat) (l : List Nat) (st : FullState) :
    (l.foldl (c.full_cell y) st).prev_buffer.length = st.prev_buffer.length ∧
    (∀ i, st.prev_buffer.getD i Tile.default = c.tile_buffer.getD i Tile.default →
      (l.foldl (c.full_cell y) st).prev_buffer.getD i Tile.default
        = c.tile_buffer.getD i Tile.default) ∧
    (∀ x ∈ l, y * c.width + x < st.prev_buffer.length →
      (l.foldl (c.full_cell y) st).prev_buffer.getD (y * c.width + x) Tile.default
        = c.tile_buffer.getD (y * c.width + x) Tile.default) := by
  induction l generalizing st with
  | nil => simp
  | cons a l ih =>
    obtain ⟨h1, h2, h3⟩ := ih (c.full_cell y st a)
    have hlen : (c.full_cell y st a).prev_buffer.length = st.prev_buffer.length := by
      rw [full_cell_prev]; simp
    have hstable : ∀ i, st.prev_buffer.getD i Tile.default = c.tile_buffer.getD i Tile.default →
        (c.full_cell y st a).prev_buffer.getD i Tile.default
          = c.tile_buffer.getD i Tile.default := by
      intro i hi
      rw [full_cell_prev, getD_set]
      split
      · next hc => rw [hc.1]
      · exact hi
    simp only [List.foldl_cons]
    refine ⟨h1.trans hlen, fun i hi => h2 i (hstable i hi), ?_⟩
    intro x hx hlt
    rcases List.mem_cons.mp hx with rfl | hx
    · apply h2
      rw [full_cell_prev, getD_set, if_pos ⟨rfl, hlt⟩]
    · exact h3 x hx (by rw [hlen]; exact hlt)

theorem full_row_prev (c : Canvas) (st : FullState) (y : Nat) :
    (c.full_row st y).prev_buffer =
      ((List.range c.width).reverse.foldl (c.full_cell y)
        { st with mismatch := true }).prev_buffer :=
  rfl

theorem full_rows_prev (c : Canvas) (ys : List Nat) (st : FullState) :
    (ys.foldl c.full_row st).prev_buffer.length = st.prev_buffer.length ∧
    (∀ i, st.prev_buffer.getD i Tile.default = c.tile_buffer.getD i Tile.default →
      (ys.foldl c.full_row st).prev_buffer.getD i Tile.default
        = c.tile_buffer.getD i Tile.default) ∧
    (∀ y ∈ ys, ∀ x, x < c.width → y * c.width + x < st.prev_buffer.length →
      (ys.foldl c.full_row st).prev_buffer.getD (y * c.width + x) Tile.default
        = c.tile_buffer.getD (y * c.width + x) Tile.default) := by
  induction ys generalizing st with
  | nil => simp
  | cons a ys ih =>
    obtain ⟨h1, h2, h3⟩ := ih (c.full_row st a)
    obtain ⟨g1, g2, g3⟩ := full_cells_prev c a (List.range c.width).reverse
      { st with mismatch := true }
    rw [← full_row_prev] at g1 g2 g3
    simp only [List.foldl_cons]
    refine ⟨h1.trans g1, fun i hi => h2 i (g2 i hi), ?_⟩
    intro y hy x hx hlt
    rcases List.mem_cons.mp hy with rfl | hy
    · apply h2
      exact g3 x (by simp [hx]) hlt
    · exact h3 y hy x hx (by rw [g1]; exact hlt)

/-- C3. On a canvas whose arrays hold `height*width` tiles (dimensions within `int`), whatever
the previous grid holds, after `full_display` the previous grid equals the current grid at
every cell `(x,y)` with `x < width` and `y < height`; the current grid, the dimensions and the
offset are those before the call. -/
theorem full_display_syncs_prev (c : Canvas) (hwf : c.WF) (_hint : c.IntSized) :
    (∀ x y, x < c.width → y < c.height →
      c.full_display.1.prev x y = c.full_display.1.cur x y) ∧
    c.full_display.1.tile_buffer = c.tile_buffer ∧
    c.full_display.1.width = c.width ∧ c.full_display.1.height = c.height ∧
    c.full_display.1.offset_x = c.offset_x ∧ c.full_display.1.offset_y = c.offset_y := by
  refine ⟨?_, rfl, rfl, rfl, rfl, rfl⟩
  intro x y hx hy
  obtain ⟨_, _, h3⟩ := full_rows_prev c (List.range c.height)
    { output := c.prologue, last_tile := none, mismatch := false,
      prev_buffer := c.prev_buffer, drawn := [] }
  have hlt : y * c.width + x < c.prev_buffer.length := by
    rw [hwf.2]; exact index_lt _ _ _ _ hx hy
  exact h3 y (List.mem_range.mpr hy) x hx hlt

/-- C3, at a 2×2 canvas never displayed, with `X` at `(1,1)`: cell `(1,1)` afterwards. -/
theorem full_display_syncs_prev_witness :
    ((Canvas.mk2 2 2).assign 1 1 ⟨"X", ⟨255, 0, 0⟩, ⟨0, 0, 0⟩⟩).2.WF ∧
    ((Canvas.mk2 2 2).assign 1 1 ⟨"X", ⟨255, 0, 0⟩, ⟨0, 0, 0⟩⟩).2.IntSized ∧
    ((Canvas.mk2 2 2).assign 1 1 ⟨"X", ⟨255, 0, 0⟩, ⟨0, 0, 0⟩⟩).2.full_display.1.prev 1 1
      = ((Canvas.mk2 2 2).assign 1 1 ⟨"X", ⟨255, 0, 0⟩, ⟨0, 0, 0⟩⟩).2.full_display.1.cur 1 1 :=
  ⟨by decide, by decide,
   (full_display_syncs_prev ((Canvas.mk2 2 2).assign 1 1 ⟨"X", ⟨255, 0, 0⟩, ⟨0, 0, 0⟩⟩).2
    (by decide) (by decide)).1 1 1 (by decide) (by decide)⟩

theorem lazy_init_fold (c : Canvas) :
    ∃ ds : List Draw, c.lazy_drawn = ds ∧
      ds.map Draw.cell = (scan c.width c.height).filter (fun p =>
        touched (c.prev p.1 p.2) (c.cur p.1 p.2)) ∧
      c.lazy_run.output = c.prologue ++ String.join (ds.map Draw.text) ∧
      ∀ d ∈ ds, d.column = "\x1b[" ++ toString (size_t (c.offset_x + d.x + 1)) ++ "G" ∧
        ∃ pre, d.body = pre ++ (c.cur d.x d.y).symbol := by
  obtain ⟨ds, h1, h2, h3, h4⟩ :=
    lazy_fold_drawn c (scan c.width c.height) (scan_pairwise c.width c.height) c.lazy_init
  refine ⟨ds, ?_, h2, ?_, h4⟩
  · unfold Canvas.lazy_drawn
    rw [lazy_run_eq, h1]
    simp [Canvas.lazy_init]
  · rw [lazy_run_eq, h3]
    rfl

theorem column_of_fit (c : Canvas) (hcol : c.ColumnsFit) (x : Nat) (hx : x < c.width) :
    size_t (c.offset_x + x + 1) = c.offset_x + x + 1 := by
  apply size_t_of_lt
  unfold Canvas.ColumnsFit at hcol
  omega

theorem lazy_drawn_in_grid (c : Canvas) :
    ∀ d ∈ c.lazy_drawn, d.x < c.width ∧ d.y < c.height := by
  obtain ⟨ds, h1, h2, _, _⟩ := lazy_init_fold c
  intro d hd
  rw [h1] at hd
  have hm : d.cell ∈ ds.map Draw.cell := List.mem_map_of_mem _ hd
  rw [h2, List.mem_filter] at hm
  exact (mem_scan _ _ d.x d.y).mp hm.1

/-- C1. On a canvas whose arrays hold `height*width` tiles (dimensions within `int`, column
numbers within `size_t`), `lazy_display` draws exactly the cells `(x,y)` of the grid whose
current tile differs from the tile the previous grid held before the call in symbol,
foreground or background: the drawn cells are those cells, each once, in scan order; the
string written is the prologue, the texts of the drawn cells and the epilogue, and nothing
else; the text of a drawn cell starts with its column move `ESC[offset_x+x+1 G` and ends with
the symbol of its current tile. -/
theorem lazy_display_draws_exactly_touched (c : Canvas) (_hwf : c.WF) (_hint : c.IntSized)
    (hcol : c.ColumnsFit) :
    (∀ x y, (x, y) ∈ c.lazy_drawn.map Draw.cell ↔
      (x < c.width ∧ y < c.height ∧
        ((c.cur x y).symbol ≠ (c.prev x y).symbol ∨
         (c.cur x y).fore_color ≠ (c.prev x y).fore_color ∨
         (c.cur x y).back_color ≠ (c.prev x y).back_color))) ∧
    c.lazy_drawn.map Draw.cell
      = (scan c.width c.height).filter (fun p => decide (c.cur p.1 p.2 ≠ c.prev p.1 p.2)) ∧
    c.lazy_display.2
      = c.prologue ++ String.join (c.lazy_drawn.map Draw.text) ++ "\x1b[u\x1b[39m\x1b[49m" ∧
    ∀ d ∈ c.lazy_drawn,
      d.text = d.column ++ d.vertical ++ d.body ∧
      d.column = "\x1b[" ++ toString (c.offset_x + d.x + 1) ++ "G" ∧
      ∃ pre, d.body = pre ++ (c.cur d.x d.y).symbol := by
  have hgrid := lazy_drawn_in_grid c
  obtain ⟨ds, h1, h2, h3, h4⟩ := lazy_init_fold c
  rw [h1] at hgrid
  rw [h1]
  have hlast : ∀ d ∈ ds, d.text = d.column ++ d.vertical ++ d.body ∧
      d.column = "\x1b[" ++ toString (c.offset_x + d.x + 1) ++ "G" ∧
      ∃ pre, d.body = pre ++ (c.cur d.x d.y).symbol := by
    intro d hd
    refine ⟨rfl, ?_, (h4 d hd).2⟩
    rw [(h4 d hd).1, column_of_fit c hcol d.x (hgrid d hd).1]
  refine ⟨?_, ?_, ?_, hlast⟩
  · intro x y
    rw [h2, List.mem_filter, mem_scan, touched_eq_true_iff]
    tauto
  · rw [h2]
    apply List.filter_congr
    intro p _
    by_cases h : c.cur p.1 p.2 = c.prev p.1 p.2
    · have hf := (touched_eq_false_iff _ _).mpr h.symm
      rw [hf]
      simp [h]
    · have : touched (c.prev p.1 p.2) (c.cur p.1 p.2) = true := by
        by_contra hn
        exact h ((touched_eq_false_iff _ _).mp (by simpa using hn)).symm
      simp [h, this]
  · simp only [Canvas.lazy_display, h3, String.append_assoc]
    rfl

/-- C1, at a 2×1 canvas never displayed, with `X` at `(0,0)`. -/
theorem lazy_display_draws_exactly_touched_witness :
    ((Canvas.mk2 2 1).assign 0 0 ⟨"X", ⟨255, 0, 0⟩, ⟨0, 0, 0⟩⟩).2.WF ∧
    ((Canvas.mk2 2 1).assign 0 0 ⟨"X", ⟨255, 0, 0⟩, ⟨0, 0, 0⟩⟩).2.IntSized ∧
    ((Canvas.mk2 2 1).assign 0 0 ⟨"X", ⟨255, 0, 0⟩, ⟨0, 0, 0⟩⟩).2.ColumnsFit ∧
    ((0, 0) ∈ ((Canvas.mk2 2 1).assign 0 0 ⟨"X", ⟨255, 0, 0⟩, ⟨0, 0, 0⟩⟩).2.lazy_drawn.map
        Draw.cell ↔
      (0 < ((Canvas.mk2 2 1).assign 0 0 ⟨"X", ⟨255, 0, 0⟩, ⟨0, 0, 0⟩⟩).2.width ∧
       0 < ((Canvas.mk2 2 1).assign 0 0 ⟨"X", ⟨255, 0, 0⟩, ⟨0, 0, 0⟩⟩).2.height ∧
        ((((Canvas.mk2 2 1).assign 0 0 ⟨"X", ⟨255, 0, 0⟩, ⟨0, 0, 0⟩⟩).2.cur 0 0).symbol ≠
          (((Canvas.mk2 2 1).assign 0 0 ⟨"X", ⟨255, 0, 0⟩, ⟨0, 0, 0⟩⟩).2.prev 0 0).symbol ∨
         (((Canvas.mk2 2 1).assign 0 0 ⟨"X", ⟨255, 0, 0⟩, ⟨0, 0, 0⟩⟩).2.cur 0 0).fore_color ≠
          (((Canvas.mk2 2 1).assign 0 0 ⟨"X", ⟨255, 0, 0⟩, ⟨0, 0, 0⟩⟩).2.prev 0 0).fore_color ∨
         (((Canvas.mk2 2 1).assign 0 0 ⟨"X", ⟨255, 0, 0⟩, ⟨0, 0, 0⟩⟩).2.cur 0 0).back_color ≠
          (((Canvas.mk2 2 1).assign 0 0 ⟨"X", ⟨255, 0, 0⟩, ⟨0, 0, 0⟩⟩).2.prev 0 0).back_color))) :=
  ⟨by decide, by decide, by decide,
   (lazy_display_draws_exactly_touched
      ((Canvas.mk2 2 1).assign 0 0 ⟨"X", ⟨255, 0, 0⟩, ⟨0, 0, 0⟩⟩).2 (by decide) (by decide)
      (by decide)).1 0 0⟩

/-- C2. On a canvas whose arrays hold `height*width` tiles (dimensions within `int`), after
`lazy_display` the previous grid equals the current grid at every cell `(x,y)` with
`x < width` and `y < height`, and the current grid (with the dimensions and the offset) is the
one before the call. -/
theorem lazy_display_commits (c : Canvas) (hwf : c.WF) (_hint : c.IntSized) :
    (∀ x y, x < c.width → y < c.height →
      c.lazy_display.1.prev x y = c.lazy_display.1.cur x y) ∧
    c.lazy_display.1.tile_buffer = c.tile_buffer ∧
    c.lazy_display.1.width = c.width ∧ c.lazy_display.1.height = c.height ∧
    c.lazy_display.1.offset_x = c.offset_x ∧ c.lazy_display.1.offset_y = c.offset_y := by
  refine ⟨?_, rfl, rfl, rfl, rfl, rfl⟩
  intro x y hx hy
  obtain ⟨_, _, h3⟩ := lazy_fold_prev c (scan c.width c.height) c.lazy_init
  have hlt : y * c.width + x < c.prev_buffer.length := by
    rw [hwf.2]; exact index_lt _ _ _ _ hx hy
  have := h3 (x, y) ((mem_scan _ _ _ _).mpr ⟨hx, hy⟩) hlt
  rw [← lazy_run_eq] at this
  exact this

/-- C2, at a 2×2 canvas never displayed, with `X` at `(1,1)`: cell `(1,1)` afterwards. -/
theorem lazy_display_commits_witness :
    ((Canvas.mk2 2 2).assign 1 1 ⟨"X", ⟨255, 0, 0⟩, ⟨0, 0, 0⟩⟩).2.WF ∧
    ((Canvas.mk2 2 2).assign 1 1 ⟨"X", ⟨255, 0, 0⟩, ⟨0, 0, 0⟩⟩).2.IntSized ∧
    ((Canvas.mk2 2 2).assign 1 1 ⟨"X", ⟨255, 0, 0⟩, ⟨0, 0, 0⟩⟩).2.lazy_display.1.prev 1 1
      = ((Canvas.mk2 2 2).assign 1 1 ⟨"X", ⟨255, 0, 0⟩, ⟨0, 0, 0⟩⟩).2.lazy_display.1.cur 1 1 :=
  ⟨by decide, by decide,
   (lazy_display_commits ((Canvas.mk2 2 2).assign 1 1 ⟨"X", ⟨255, 0, 0⟩, ⟨0, 0, 0⟩⟩).2
    (by decide) (by decide)).1 1 1 (by decide) (by decide)⟩

/-- C4 as stated fails: right after `full_display` of a 2×1 canvas holding `X` at `(0,0)`, the
previous grid equals the current grid, and `lazy_display` still writes the cursor save, the
cursor restore and the colour reset, sixteen characters. -/
theorem lazy_display_output_not_empty :
    ((Canvas.mk2 2 1).assign 0 0 ⟨"X", ⟨255, 0, 0⟩, ⟨0, 0, 0⟩⟩).2.full_display.1.prev_buffer
      = ((Canvas.mk2 2 1).assign 0 0 ⟨"X", ⟨255, 0, 0⟩, ⟨0, 0, 0⟩⟩).2.full_display.1.tile_buffer ∧
    ((Canvas.mk2 2 1).assign 0 0 ⟨"X", ⟨255, 0, 0⟩, ⟨0, 0, 0⟩⟩).2.full_display.1.lazy_display.2
      = "\x1b[s\x1b[u\x1b[39m\x1b[49m" ∧
    ((Canvas.mk2 2 1).assign 0 0 ⟨"X", ⟨255, 0, 0⟩, ⟨0, 0, 0⟩⟩).2.full_display.1.lazy_display.2.length
      ≠ 0 := by
  decide

/-- C4, amended. On a canvas whose arrays hold `height*width` tiles (dimensions within `int`)
and whose previous grid equals its current grid at every cell, `lazy_display` draws no cell:
the string it writes is the cursor save, the move down by `offset_y` when that is not zero,
the cursor restore and the colour reset, with no column move, symbol or colour-setting escape;
and the canvas is left as it was. -/
theorem lazy_display_synced_output (c : Canvas) (_hwf : c.WF) (_hint : c.IntSized)
    (hsync : ∀ x y, x < c.width → y < c.height → c.prev x y = c.cur x y) :
    c.lazy_drawn = [] ∧
    c.lazy_display.2
      = "\x1b[s" ++ (if c.offset_y ≠ 0 then "\x1b[" ++ toString c.offset_y ++ "B" else "")
          ++ "\x1b[u\x1b[39m\x1b[49m" ∧
    c.lazy_display.1 = c := by
  have hrun : c.lazy_run = c.lazy_init := by
    rw [lazy_run_eq]
    apply lazy_fold_untouched
    rintro ⟨x, y⟩ hp
    rw [mem_scan] at hp
    exact (touched_eq_false_iff _ _).mpr (hsync x y hp.1 hp.2)
  refine ⟨?_, ?_, ?_⟩
  · simp [Canvas.lazy_drawn, hrun, Canvas.lazy_init]
  · simp only [Canvas.lazy_display, hrun, Canvas.lazy_init, Canvas.prologue]
    by_cases h0 : c.offset_y = 0
    · simp only [h0, ne_eq, not_true_eq_false, if_false, String.append_assoc]
      rfl
    · simp only [h0, ne_eq, not_false_eq_true, if_true, String.append_assoc]
      rfl
  · simp only [Canvas.lazy_display, hrun, Canvas.lazy_init]

/-- C4 amended, at a 2×1 canvas at offset `(3,4)` right after its `full_display`. -/
theorem lazy_display_synced_output_witness :
    (Canvas.mk4 2 1 3 4).full_display.1.WF ∧ (Canvas.mk4 2 1 3 4).full_display.1.IntSized ∧
    (Canvas.mk4 2 1 3 4).full_display.1.lazy_display.2 = "\x1b[s\x1b[4B\x1b[u\x1b[39m\x1b[49m" :=
  ⟨by decide, by decide,
   (lazy_display_synced_output (Canvas.mk4 2 1 3 4).full_display.1 (by decide) (by decide)
    (by
      intro x y hx hy
      have hx2 : x < 2 := hx
      have hy1 : y < 1 := hy
      interval_cases x <;> interval_cases y <;> decide)).2.1⟩

/-- C5 fails on the code. `lazy_display` of `space_then_letter` draws the space at `(1,0)` first, with
the background escape only, then `X` at `(0,0)` without escapes because its colours equal
those of the tile drawn before it: no foreground escape is written at all, and a terminal
that starts at its default colours writes `X` with the default foreground, not with the
tile's foreground `(255,0,0)`. -/
theorem lazy_display_foreground_not_set :
    space_then_letter.lazy_display.2 = "\x1b[s\x1b[2G\x1b[48;2;0;0;0m \x1b[1GX\x1b[u\x1b[39m\x1b[49m" ∧
    space_then_letter.lazy_drawn.map Draw.cell = [(1, 0), (0, 0)] ∧
    space_then_letter.cur 0 0 = ⟨"X", ⟨255, 0, 0⟩, ⟨0, 0, 0⟩⟩ ∧
    Terminal.run space_then_letter.lazy_display.2
      = [(' ', none, some ⟨0, 0, 0⟩), ('X', none, some ⟨0, 0, 0⟩)] := by
  decide

/-- C8 fails on the code. A 1×2 canvas holds `X` at `(0,1)`; `resize(1,2)` computes the row
limit from the widths, `min(1,1) = 1`, copies row `0` only, and the cell `(0,1)` of the
overlapping rectangle holds the default tile afterwards. -/
theorem resize_drops_rows :
    (((Canvas.mk2 1 2).assign 0 1 ⟨"X", ⟨255, 0, 0⟩, ⟨0, 0, 0⟩⟩).2.resize 1 2).1 = Except.ok () ∧
    ((Canvas.mk2 1 2).assign 0 1 ⟨"X", ⟨255, 0, 0⟩, ⟨0, 0, 0⟩⟩).2.read 0 1
      = Except.ok ⟨"X", ⟨255, 0, 0⟩, ⟨0, 0, 0⟩⟩ ∧
    (((Canvas.mk2 1 2).assign 0 1 ⟨"X", ⟨255, 0, 0⟩, ⟨0, 0, 0⟩⟩).2.resize 1 2).2.read 0 1
      = Except.ok Tile.default :=
  ⟨rfl, rfl, rfl⟩

/-- C9 fails on the code. `resize(2,2)` of a 1×1 canvas returns normally with arrays of four
tiles each, while `get_width()` and `get_height()` still report `1` and `1`: the members are
never assigned, and the arrays no longer hold `width*height` tiles. -/
theorem resize_keeps_old_dimensions :
    ((Canvas.mk2 1 1).resize 2 2).1 = Except.ok () ∧
    ((Canvas.mk2 1 1).resize 2 2).2.get_width = 1 ∧
    ((Canvas.mk2 1 1).resize 2 2).2.get_height = 1 ∧
    ((Canvas.mk2 1 1).resize 2 2).2.tile_buffer.length = 4 ∧
    ((Canvas.mk2 1 1).resize 2 2).2.prev_buffer.length = 4 ∧
    (Canvas.mk2 1 1).WF ∧ ¬ ((Canvas.mk2 1 1).resize 2 2).2.WF :=
  ⟨rfl, rfl, rfl, rfl, rfl, by decide, by decide⟩

/-- C10 fails on the code. A 1×1 canvas is displayed while empty and then receives `X` at
`(0,0)`: its previous grid holds the default tile there.  After `resize(1,1)` the previous
grid holds `X`, the tile of the current grid, which was never displayed. -/
theorem resize_prev_from_current :
    (((Canvas.mk2 1 1).full_display.1.assign 0 0 ⟨"X", ⟨255, 0, 0⟩, ⟨0, 0, 0⟩⟩).2.resize 1 1).1
      = Except.ok () ∧
    ((Canvas.mk2 1 1).full_display.1.assign 0 0 ⟨"X", ⟨255, 0, 0⟩, ⟨0, 0, 0⟩⟩).2.prev 0 0
      = Tile.default ∧
    (((Canvas.mk2 1 1).full_display.1.assign 0 0 ⟨"X", ⟨255, 0, 0⟩, ⟨0, 0, 0⟩⟩).2.resize 1 1).2.prev
      0 0 = ⟨"X", ⟨255, 0, 0⟩, ⟨0, 0, 0⟩⟩ :=
  ⟨rfl, rfl, rfl⟩

theorem push_spaces (n : Nat) (out : String) :
    (List.range n).foldl (fun o _x => o.push ' ') out = out ++ String.mk (List.replicate n ' ') := by
  induction n with
  | zero => apply String.ext; simp
  | succ n ih =>
    rw [List.range_succ, List.foldl_append, ih]
    apply String.ext
    simp [String.data_push, List.replicate_succ']

theorem hide_row_eq (c : Canvas) (out : String) (y : Nat) :
    c.hide_row out y = out ++ c.blank_row := by
  simp only [Canvas.hide_row, Canvas.blank_row, push_spaces, String.append_assoc]

theorem hide_rows_eq (c : Canvas) (ys : List Nat) (out : String) :
    ys.foldl c.hide_row out = out ++ String.join (List.replicate ys.length c.blank_row) := by
  induction ys generalizing out with
  | nil => simp [join_nil]
  | cons y ys ih =>
    rw [List.foldl_cons, ih, hide_row_eq, List.length_cons, List.replicate_succ, join_cons,
      String.append_assoc]

theorem hide_output_eq (c : Canvas) :
    c.hide.2 = "\x1b[s" ++ (if c.offset_y ≠ 0 then "\x1b[" ++ toString c.offset_y ++ "B" else "")
      ++ "\x1b[39m\x1b[49m" ++ String.join (List.replicate c.height c.blank_row) ++ "\x1b[u" := by
  simp only [Canvas.hide, hide_rows_eq, List.length_range, Canvas.prologue]
  by_cases h0 : c.offset_y = 0
  · simp only [h0, ne_eq, not_true_eq_false, if_false, String.append_assoc]
    rfl
  · simp only [h0, ne_eq, not_false_eq_true, if_true, String.append_assoc]
    rfl

theorem digitChar_isDigit (m : Nat) (hm : m < 10) : (Nat.digitChar m).isDigit = true := by
  interval_cases m <;> decide

theorem toDigitsCore_isDigit (fuel n : Nat) (ds : List Char)
    (hds : ∀ ch ∈ ds, ch.isDigit = true) :
    ∀ ch ∈ Nat.toDigitsCore 10 fuel n ds, ch.isDigit = true := by
  induction fuel generalizing n ds with
  | zero => simpa [Nat.toDigitsCore] using hds
  | succ fuel ih =>
    have hd : (Nat.digitChar (n % 10)).isDigit = true :=
      digitChar_isDigit _ (Nat.mod_lt _ (by decide))
    have hcons : ∀ ch ∈ Nat.digitChar (n % 10) :: ds, ch.isDigit = true := by
      intro ch hch
      rcases List.mem_cons.mp hch with rfl | hch
      · exact hd
      · exact hds ch hch
    unfold Nat.toDigitsCore
    simp only
    split
    · exact hcons
    · exact ih _ _ hcons

theorem toString_isDigit (n : Nat) : ∀ ch ∈ (toString n).toList, ch.isDigit = true := by
  intro ch hch
  have h : (toString n).toList = Nat.toDigits 10 n := rfl
  rw [h] at hch
  exact toDigitsCore_isDigit _ _ [] (by simp) ch hch

theorem feed_digits (ds : List Char) (hds : ∀ ch ∈ ds, ch.isDigit = true) (t : Terminal)
    (hm : t.mode = 2) :
    ∃ k, ds.foldl Terminal.feed t = { t with cur := k } := by
  induction ds generalizing t with
  | nil => exact ⟨t.cur, rfl⟩
  | cons d ds ih =>
    have hd : d.isDigit = true := hds d (List.mem_cons_self d ds)
    have hstep : Terminal.feed t d = { t with cur := t.cur * 10 + (d.toNat - 48) } := by
      simp [Terminal.feed, hm, hd]
    obtain ⟨k, hk⟩ := ih (fun ch hch => hds ch (List.mem_cons_of_mem d hch))
      { t with cur := t.cur * 10 + (d.toNat - 48) } hm
    exact ⟨k, by rw [List.foldl_cons, hstep, hk]⟩

theorem feed_move (n : Nat) (f : Char) (hf1 : f.isDigit = false) (hf2 : f ≠ ';') (hf3 : f ≠ 'm')
    (fg bg : Option RGB) (w : List (Char × Option RGB × Option RGB)) :
    ('\x1b' :: '[' :: ((toString n).toList ++ [f])).foldl Terminal.feed
        { fg := fg, bg := bg, mode := 0, params := [], cur := 0, written := w }
      = { fg := fg, bg := bg, mode := 0, params := [], cur := 0, written := w } := by
  rw [List.foldl_cons, List.foldl_cons, List.foldl_append]
  have h1 : Terminal.feed (Terminal.feed
      { fg := fg, bg := bg, mode := 0, params := [], cur := 0, written := w } '\x1b') '['
      = { fg := fg, bg := bg, mode := 2, params := [], cur := 0, written := w } := by
    simp [Terminal.feed]
  rw [h1]
  obtain ⟨k, hk⟩ := feed_digits (toString n).toList (toString_isDigit n)
    { fg := fg, bg := bg, mode := 2, params := [], cur := 0, written := w } rfl
  rw [hk]
  simp [Terminal.feed, hf1, hf2, hf3]

theorem feed_spaces (n : Nat) (w : List (Char × Option RGB × Option RGB)) :
    (List.replicate n ' ').foldl Terminal.feed (Terminal.idle w)
      = Terminal.idle (w ++ List.replicate n (' ', none, none)) := by
  induction n generalizing w with
  | zero => simp
  | succ n ih =>
    rw [List.replicate_succ, List.foldl_cons]
    have h1 : Terminal.feed (Terminal.idle w) ' ' = Terminal.idle (w ++ [(' ', none, none)]) := by
      simp [Terminal.feed, Terminal.idle]
    rw [h1, ih, List.append_assoc]
    rfl

theorem feed_blank_row (c : Canvas) (w : List (Char × Option RGB × Option RGB)) :
    c.blank_row.toList.foldl Terminal.feed (Terminal.idle w)
      = Terminal.idle (w ++ List.replicate c.width (' ', none, none)) := by
  have hl : c.blank_row.toList
      = ('\x1b' :: '[' :: ((toString (size_t (c.offset_x + 1))).toList ++ ['G']))
          ++ (List.replicate c.width ' ' ++ ['\r', '\n']) := by
    simp [Canvas.blank_row, String.toList, String.data_append]
  rw [hl, List.foldl_append]
  have hm := feed_move (size_t (c.offset_x + 1)) 'G' (by decide) (by decide) (by decide) none none w
  rw [Terminal.idle, hm, List.foldl_append]
  have hs := feed_spaces c.width w
  rw [Terminal.idle] at hs
  rw [hs]
  simp [Terminal.feed, Terminal.idle]

theorem feed_blank_rows (c : Canvas) (n : Nat) (w : List (Char × Option RGB × Option RGB)) :
    (String.join (List.replicate n c.blank_row)).toList.foldl Terminal.feed (Terminal.idle w)
      = Terminal.idle (w ++ List.replicate (n * c.width) (' ', none, none)) := by
  induction n generalizing w with
  | zero => simp [join_nil]
  | succ n ih =>
    rw [List.replicate_succ, join_cons]
    have hl : (c.blank_row ++ String.join (List.replicate n c.blank_row)).toList
        = c.blank_row.toList ++ (String.join (List.replicate n c.blank_row)).toList := by
      simp [String.toList, String.data_append]
    rw [hl, List.foldl_append, feed_blank_row, ih, List.append_assoc,
      ← List.replicate_add, Nat.add_comm, ← Nat.succ_mul]

theorem feed_fixed (s : String) (w : List (Char × Option RGB × Option RGB))
    (hs : s = "\x1b[s" ∨ s = "\x1b[u" ∨ s = "\x1b[39m\x1b[49m" ∨ s = "") :
    s.toList.foldl Terminal.feed (Terminal.idle w) = Terminal.idle w := by
  rcases hs with rfl | rfl | rfl | rfl <;>
    simp [String.toList, Terminal.feed, Terminal.idle, Terminal.sgr]

theorem feed_offset (n : Nat) (w : List (Char × Option RGB × Option RGB)) :
    ("\x1b[" ++ toString n ++ "B").toList.foldl Terminal.feed (Terminal.idle w)
      = Terminal.idle w := by
  have hl : ("\x1b[" ++ toString n ++ "B").toList
      = '\x1b' :: '[' :: ((toString n).toList ++ ['B']) := by
    simp [String.toList, String.data_append]
  rw [hl]
  exact feed_move n 'B' (by decide) (by decide) (by decide) none none w

theorem toList_append (a b : String) : (a ++ b).toList = a.toList ++ b.toList := by
  simp [String.toList, String.data_append]

theorem run_hide (c : Canvas) :
    Terminal.run c.hide.2 = List.replicate (c.height * c.width) (' ', none, none) := by
  have hinit : ({ fg := none, bg := none, mode := 0, params := [], cur := 0, written := [] }
      : Terminal) = Terminal.idle [] := rfl
  rw [Terminal.run, hinit, hide_output_eq]
  simp only [toList_append, List.foldl_append]
  rw [feed_fixed _ _ (Or.inl rfl)]
  have hoff : (if c.offset_y ≠ 0 then "\x1b[" ++ toString c.offset_y ++ "B" else "").toList.foldl
      Terminal.feed (Terminal.idle []) = Terminal.idle [] := by
    split
    · exact feed_offset _ _
    · exact feed_fixed _ _ (Or.inr (Or.inr (Or.inr rfl)))
  rw [hoff, feed_fixed _ _ (Or.inr (Or.inr (Or.inl rfl))), feed_blank_rows,
    feed_fixed _ _ (Or.inr (Or.inl rfl))]
  simp [Terminal.idle]

/-- C15. For every canvas whose `offset_x + 1` is within `size_t`, `hide()` writes the cursor
save, the move down by `offset_y` exactly when `offset_y` is not zero, the reset
`ESC[39m ESC[49m`, then `height` times the column move to `offset_x+1` followed by `width`
spaces and CR LF, then the cursor restore.  A terminal reading this string writes
`height*width` characters, all of them spaces in the default colours, so no colour is set;
and the canvas, both grids included, is the one before the call. -/
theorem hide_blanks_rectangle (c : Canvas) (hx : c.offset_x + 1 < 18446744073709551616) :
    c.hide.2 = "\x1b[s" ++ (if c.offset_y ≠ 0 then "\x1b[" ++ toString c.offset_y ++ "B" else "")
      ++ "\x1b[39m\x1b[49m"
      ++ String.join (List.replicate c.height
          ("\x1b[" ++ toString (c.offset_x + 1) ++ "G" ++ String.mk (List.replicate c.width ' ')
            ++ "\r\n"))
      ++ "\x1b[u" ∧
    Terminal.run c.hide.2 = List.replicate (c.height * c.width) (' ', none, none) ∧
    c.hide.1 = c ∧
    c.hide.1.tile_buffer = c.tile_buffer ∧ c.hide.1.prev_buffer = c.prev_buffer := by
  refine ⟨?_, run_hide c, rfl, rfl, rfl⟩
  rw [hide_output_eq, Canvas.blank_row, size_t_of_lt _ hx]

/-- C15, at a 2×1 canvas at offset `(3,4)`. -/
theorem hide_blanks_rectangle_witness :
    (Canvas.mk4 2 1 3 4).offset_x + 1 < 18446744073709551616 ∧
    (Canvas.mk4 2 1 3 4).hide.2 = "\x1b[s\x1b[4B\x1b[39m\x1b[49m\x1b[4G  \r\n\x1b[u" ∧
    Terminal.run (Canvas.mk4 2 1 3 4).hide.2 = [(' ', none, none), (' ', none, none)] :=
  ⟨by decide, (hide_blanks_rectangle (Canvas.mk4 2 1 3 4) (by decide)).1,
   (hide_blanks_rectangle (Canvas.mk4 2 1 3 4) (by decide)).2.1⟩

/-- C11. For every canvas and every `(x2,y2)`, `reposition(x2,y2)` writes what `hide()` writes
at the offset the canvas has, followed by what `full_display()` writes at offset `(x2,y2)`;
when the old `offset_x + 1` is within `size_t`, the first part is the blank of the whole
rectangle at the old offset.  Afterwards the offset is `(x2,y2)` and the current grid and the
dimensions are those before the call. -/
theorem reposition_hides_then_displays (c : Canvas) (x2 y2 : Nat) :
    (c.reposition x2 y2).2
      = c.hide.2 ++ ({ c with offset_x := x2, offset_y := y2 } : Canvas).full_display.2 ∧
    (c.offset_x + 1 < 18446744073709551616 →
      (c.reposition x2 y2).2
        = ("\x1b[s" ++ (if c.offset_y ≠ 0 then "\x1b[" ++ toString c.offset_y ++ "B" else "")
            ++ "\x1b[39m\x1b[49m"
            ++ String.join (List.replicate c.height
                ("\x1b[" ++ toString (c.offset_x + 1) ++ "G"
                  ++ String.mk (List.replicate c.width ' ') ++ "\r\n"))
            ++ "\x1b[u")
          ++ ({ c with offset_x := x2, offset_y := y2 } : Canvas).full_display.2) ∧
    (c.reposition x2 y2).1.offset_x = x2 ∧ (c.reposition x2 y2).1.offset_y = y2 ∧
    (c.reposition x2 y2).1.tile_buffer = c.tile_buffer ∧
    (c.reposition x2 y2).1.width = c.width ∧ (c.reposition x2 y2).1.height = c.height := by
  refine ⟨rfl, ?_, rfl, rfl, rfl, rfl, rfl⟩
  intro hx
  have h : (c.reposition x2 y2).2
      = c.hide.2 ++ ({ c with offset_x := x2, offset_y := y2 } : Canvas).full_display.2 := rfl
  rw [h, hide_output_eq, Canvas.blank_row, size_t_of_lt _ hx]

/-- C11, at a 1×1 canvas holding `X`, moved from offset `(3,4)` to `(0,0)`. -/
theorem reposition_hides_then_displays_witness :
    ((Canvas.mk4 1 1 3 4).assign 0 0 ⟨"X", ⟨255, 0, 0⟩, ⟨0, 0, 0⟩⟩).2.offset_x + 1
      < 18446744073709551616 ∧
    (((Canvas.mk4 1 1 3 4).assign 0 0 ⟨"X", ⟨255, 0, 0⟩, ⟨0, 0, 0⟩⟩).2.reposition 0 0).2
      = "\x1b[s\x1b[4B\x1b[39m\x1b[49m\x1b[4G \r\n\x1b[u"
        ++ "\x1b[s\x1b[1G\x1b[38;2;255;0;0m\x1b[48;2;0;0;0mX\x1b[39m\x1b[49m\r\n\x1b[u" :=
  ⟨by decide,
   (reposition_hides_then_displays
      ((Canvas.mk4 1 1 3 4).assign 0 0 ⟨"X", ⟨255, 0, 0⟩, ⟨0, 0, 0⟩⟩).2 0 0).2.1 (by decide)⟩

/-- C13 as stated fails: the symbol of the default tile is the empty string, of length zero,
not the one-character string holding a space. -/
theorem default_symbol_not_space :
    Tile.default.symbol ≠ " " ∧ Tile.default.symbol.length = 0 := by
  decide

/-- C13, amended. The default-constructed tile has the empty string as its symbol, foreground
`(0,0,0)` and background `(0,0,0)`, and on a freshly constructed canvas every tile of both
grids is that tile; when `height*width` is within `size_t` each grid holds `height*width`
tiles and every cell `(x,y)` with `x < width`, `y < height` reads as that tile. -/
theorem default_tile_is_empty (w h x0 y0 : Nat) :
    Tile.default = ⟨"", ⟨0, 0, 0⟩, ⟨0, 0, 0⟩⟩ ∧
    (∀ t ∈ (Canvas.mk4 w h x0 y0).tile_buffer, t = Tile.default) ∧
    (∀ t ∈ (Canvas.mk4 w h x0 y0).prev_buffer, t = Tile.default) ∧
    (∀ t ∈ (Canvas.mk2 w h).tile_buffer, t = Tile.default) ∧
    (∀ t ∈ (Canvas.mk2 w h).prev_buffer, t = Tile.default) ∧
    (h * w < 18446744073709551616 →
      (Canvas.mk2 w h).WF ∧ (Canvas.mk4 w h x0 y0).WF ∧
      ∀ x y, x < w → y < h →
        (Canvas.mk2 w h).read x y = Except.ok Tile.default ∧
        (Canvas.mk4 w h x0 y0).read x y = Except.ok Tile.default) := by
  refine ⟨rfl, ?_, ?_, ?_, ?_, ?_⟩
  · intro t ht; exact List.eq_of_mem_replicate ht
  · intro t ht; exact List.eq_of_mem_replicate ht
  · intro t ht; exact List.eq_of_mem_replicate ht
  · intro t ht; exact List.eq_of_mem_replicate ht
  · intro hfit
    have hsz : size_t (h * w) = h * w := size_t_of_lt _ hfit
    refine ⟨?_, ?_, ?_⟩
    · simp [Canvas.WF, Canvas.mk2, newTiles, hsz]
    · simp [Canvas.WF, Canvas.mk4, newTiles, hsz]
    · intro x y hx hy
      have hok2 : (Canvas.mk2 w h).op_call x y = Except.ok (y * w + x) :=
        op_call_ok (Canvas.mk2 w h) x y hx hy
      have hok4 : (Canvas.mk4 w h x0 y0).op_call x y = Except.ok (y * w + x) :=
        op_call_ok (Canvas.mk4 w h x0 y0) x y hx hy
      have hlt : y * w + x < h * w := index_lt w h x y hx hy
      simp only [Canvas.read, hok2, hok4]
      simp [Canvas.mk2, Canvas.mk4, newTiles, hsz, hlt]

/-- C13 amended, at a fresh 3×2 canvas read at `(2,1)`. -/
theorem default_tile_is_empty_witness :
    2 * 3 < 18446744073709551616 ∧ 2 < 3 ∧ 1 < 2 ∧
    (Canvas.mk2 3 2).read 2 1 = Except.ok ⟨"", ⟨0, 0, 0⟩, ⟨0, 0, 0⟩⟩ :=
  ⟨by decide, by decide, by decide,
   (((default_tile_is_empty 3 2 0 0).2.2.2.2.2 (by decide)).2.2 2 1 (by decide)
    (by decide)).1⟩

theorem cooked_mode_idem (s : InputState) :
    Input.cooked_mode (Input.cooked_mode s) = Input.cooked_mode s := rfl

theorem cooked_mode_iterate (n : Nat) (s : InputState) :
    Input.cooked_mode^[n + 1] s = Input.cooked_mode s := by
  induction n with
  | zero => rfl
  | succ n ih => rw [Function.iterate_succ_apply', ih, cooked_mode_idem]

/-- C16. Whatever the flag constants, the terminal settings `s` in force and the content of
the saved slot before, after `raw_mode` followed by any positive number `n` of `cooked_mode`
calls the settings in force are `s`, and the saved slot still holds `s`; one more
`cooked_mode` changes nothing. -/
theorem cooked_mode_restores (k : TermiosFlags) (s saved : Termios) (n : Nat) (hn : 0 < n) :
    (Input.cooked_mode^[n] (Input.raw_mode k ⟨s, saved⟩)).applied = s ∧
    (Input.cooked_mode^[n] (Input.raw_mode k ⟨s, saved⟩)).original_termios = s ∧
    Input.cooked_mode (Input.cooked_mode^[n] (Input.raw_mode k ⟨s, saved⟩))
      = Input.cooked_mode^[n] (Input.raw_mode k ⟨s, saved⟩) := by
  obtain ⟨m, rfl⟩ : ∃ m, n = m + 1 := ⟨n - 1, by omega⟩
  rw [cooked_mode_iterate]
  exact ⟨rfl, rfl, rfl⟩

/-- C16, with the Linux constants, settings with `ECHO` and `ICANON` set, three calls. -/
theorem cooked_mode_restores_witness :
    0 < 3 ∧
    (Input.raw_mode linux_flags ⟨⟨1280, 5, 191, 35387, []⟩, ⟨0, 0, 0, 0, []⟩⟩).applied
      ≠ ⟨1280, 5, 191, 35387, []⟩ ∧
    (Input.cooked_mode^[3]
      (Input.raw_mode linux_flags ⟨⟨1280, 5, 191, 35387, []⟩, ⟨0, 0, 0, 0, []⟩⟩)).applied
      = ⟨1280, 5, 191, 35387, []⟩ :=
  ⟨by decide, by decide,
   (cooked_mode_restores linux_flags ⟨1280, 5, 191, 35387, []⟩ ⟨0, 0, 0, 0, []⟩ 3
    (by decide)).1⟩

/-- C20 as stated fails: for a tile whose symbol is a single space the conversion writes the
background escape and the space only, without the foreground escape. -/
theorem toEscaped_space_without_foreground :
    Tile.toEscaped ⟨" ", ⟨1, 2, 3⟩, ⟨4, 5, 6⟩⟩ = "\x1b[48;2;4;5;6m " ∧
    Tile.toEscaped ⟨" ", ⟨1, 2, 3⟩, ⟨4, 5, 6⟩⟩ ≠ "\x1b[38;2;1;2;3m\x1b[48;2;4;5;6m " := by
  decide

/-- C20, amended. For every tile whose symbol is not a single space, the escaped conversion is
`ESC[38;2;fr;fg;fbm` followed by `ESC[48;2;br;bg;bbm` followed by the symbol; for a tile whose
symbol is a single space it is `ESC[48;2;br;bg;bbm` followed by the space, with no foreground
escape.  The channels are printed in decimal and are below 256.  `raw_symbol` returns the
symbol alone. -/
theorem toEscaped_eq (t : Tile) :
    t.toEscaped
      = (if t.symbol = " " then ""
          else s!"\x1b[38;2;{t.fore_color.red.val};{t.fore_color.green.val};{t.fore_color.blue.val}m")
        ++ s!"\x1b[48;2;{t.back_color.red.val};{t.back_color.green.val};{t.back_color.blue.val}m"
        ++ t.symbol ∧
    t.raw_symbol = t.symbol ∧
    t.fore_color.red.val < 256 ∧ t.fore_color.green.val < 256 ∧ t.fore_color.blue.val < 256 ∧
    t.back_color.red.val < 256 ∧ t.back_color.green.val < 256 ∧ t.back_color.blue.val < 256 := by
  refine ⟨?_, rfl, t.fore_color.red.isLt, t.fore_color.green.isLt, t.fore_color.blue.isLt,
    t.back_color.red.isLt, t.back_color.green.isLt, t.back_color.blue.isLt⟩
  unfold Tile.toEscaped
  by_cases h : t.symbol = " "
  · simp only [h, bne_self_eq_false, Bool.false_eq_true, if_false, if_true]
    apply String.ext
    simp [String.data_append]
    rfl
  · have hb : (t.symbol != " ") = true := by simpa using h
    simp only [hb, h, if_true, if_false]
    apply String.ext
    simp [String.data_append]
    rfl

theorem full_cell_congr (c1 c2 : Canvas) (hw : c1.width = c2.width)
    (hox : c1.offset_x = c2.offset_x) (ht : c1.tile_buffer = c2.tile_buffer) (y x : Nat)
    (s1 s2 : FullState)
    (h : s1.output = s2.output ∧ s1.last_tile = s2.last_tile ∧ s1.mismatch = s2.mismatch ∧
      s1.drawn = s2.drawn) :
    (c1.full_cell y s1 x).output = (c2.full_cell y s2 x).output ∧
    (c1.full_cell y s1 x).last_tile = (c2.full_cell y s2 x).last_tile ∧
    (c1.full_cell y s1 x).mismatch = (c2.full_cell y s2 x).mismatch ∧
    (c1.full_cell y s1 x).drawn = (c2.full_cell y s2 x).drawn := by
  obtain ⟨h1, h2, h3, h4⟩ := h
  simp only [Canvas.full_cell, hw, hox, ht, h1, h2, h3, h4, and_self]

theorem full_cells_congr (c1 c2 : Canvas) (hw : c1.width = c2.width)
    (hox : c1.offset_x = c2.offset_x) (ht : c1.tile_buffer = c2.tile_buffer) (y : Nat)
    (l : List Nat) (s1 s2 : FullState)
    (h : s1.output = s2.output ∧ s1.last_tile = s2.last_tile ∧ s1.mismatch = s2.mismatch ∧
      s1.drawn = s2.drawn) :
    (l.foldl (c1.full_cell y) s1).output = (l.foldl (c2.full_cell y) s2).output ∧
    (l.foldl (c1.full_cell y) s1).last_tile = (l.foldl (c2.full_cell y) s2).last_tile ∧
    (l.foldl (c1.full_cell y) s1).mismatch = (l.foldl (c2.full_cell y) s2).mismatch ∧
    (l.foldl (c1.full_cell y) s1).drawn = (l.foldl (c2.full_cell y) s2).drawn := by
  induction l generalizing s1 s2 with
  | nil => exact h
  | cons x l ih =>
    simp only [List.foldl_cons]
    exact ih _ _ (full_cell_congr c1 c2 hw hox ht y x s1 s2 h)

theorem full_row_congr (c1 c2 : Canvas) (hw : c1.width = c2.width)
    (hox : c1.offset_x = c2.offset_x) (ht : c1.tile_buffer = c2.tile_buffer) (y : Nat)
    (s1 s2 : FullState)
    (h : s1.output = s2.output ∧ s1.last_tile = s2.last_tile ∧ s1.mismatch = s2.mismatch ∧
      s1.drawn = s2.drawn) :
    (c1.full_row s1 y).output = (c2.full_row s2 y).output ∧
    (c1.full_row s1 y).last_tile = (c2.full_row s2 y).last_tile ∧
    (c1.full_row s1 y).mismatch = (c2.full_row s2 y).mismatch ∧
    (c1.full_row s1 y).drawn = (c2.full_row s2 y).drawn := by
  obtain ⟨h1, h2, h3, h4⟩ := h
  obtain ⟨g1, g2, g3, g4⟩ := full_cells_congr c1 c2 hw hox ht y (List.range c1.width).reverse
    { s1 with mismatch := true } { s2 with mismatch := true } ⟨h1, h2, rfl, h4⟩
  simp only [Canvas.full_row]
  rw [← hw]
  exact ⟨by rw [g1], g2, g3, g4⟩

theorem full_rows_congr (c1 c2 : Canvas) (hw : c1.width = c2.width)
    (hox : c1.offset_x = c2.offset_x) (ht : c1.tile_buffer = c2.tile_buffer)
    (ys : List Nat) (s1 s2 : FullState)
    (h : s1.output = s2.output ∧ s1.last_tile = s2.last_tile ∧ s1.mismatch = s2.mismatch ∧
      s1.drawn = s2.drawn) :
    (ys.foldl c1.full_row s1).output = (ys.foldl c2.full_row s2).output ∧
    (ys.foldl c1.full_row s1).drawn = (ys.foldl c2.full_row s2).drawn := by
  induction ys generalizing s1 s2 with
  | nil => exact ⟨h.1, h.2.2.2⟩
  | cons y ys ih =>
    simp only [List.foldl_cons]
    exact ih _ _ (full_row_congr c1 c2 hw hox ht y s1 s2 h)

theorem full_display_output_congr (c1 c2 : Canvas) (hw : c1.width = c2.width)
    (hh : c1.height = c2.height) (hox : c1.offset_x = c2.offset_x)
    (hoy : c1.offset_y = c2.offset_y) (ht : c1.tile_buffer = c2.tile_buffer) :
    c1.full_display.2 = c2.full_display.2 ∧ c1.full_run.drawn = c2.full_run.drawn := by
  have hp : c1.prologue = c2.prologue := by simp only [Canvas.prologue, hoy]
  obtain ⟨g1, g2⟩ := full_rows_congr c1 c2 hw hox ht (List.range c1.height)
    { output := c1.prologue, last_tile := none, mismatch := false,
      prev_buffer := c1.prev_buffer, drawn := [] }
    { output := c2.prologue, last_tile := none, mismatch := false,
      prev_buffer := c2.prev_buffer, drawn := [] } ⟨hp, rfl, rfl, rfl⟩
  simp only [Canvas.full_display, Canvas.full_run]
  rw [← hh]
  exact ⟨by rw [g1], g2⟩

theorem full_run_prev_eq (c : Canvas) (hwf : c.WF) : c.full_run.prev_buffer = c.tile_buffer := by
  obtain ⟨h1, _, h3⟩ := full_rows_prev c (List.range c.height)
    { output := c.prologue, last_tile := none, mismatch := false,
      prev_buffer := c.prev_buffer, drawn := [] }
  have hlen : c.full_run.prev_buffer.length = c.tile_buffer.length := by
    rw [hwf.1, ← hwf.2]; exact h1
  apply List.ext_getElem hlen
  intro i hi1 hi2
  have hi : i < c.height * c.width := by rw [← hwf.1]; exact hi2
  have hw : 0 < c.width := by
    rcases Nat.eq_zero_or_pos c.width with h0 | h0
    · rw [h0] at hi; simp at hi
    · exact h0
  have hx : i % c.width < c.width := Nat.mod_lt _ hw
  have hy : i / c.width < c.height := by
    rw [Nat.div_lt_iff_lt_mul hw]; exact hi
  have hidx : i / c.width * c.width + i % c.width = i := by
    rw [Nat.mul_comm]; exact Nat.div_add_mod i c.width
  have := h3 (i / c.width) (List.mem_range.mpr hy) (i % c.width) hx
    (by rw [hidx]; show i < c.prev_buffer.length; rw [hwf.2]; exact hi)
  rw [hidx] at this
  have e1 : c.full_run.prev_buffer.getD i Tile.default = c.full_run.prev_buffer[i] := by
    simp [hi1]
  have e2 : c.tile_buffer.getD i Tile.default = c.tile_buffer[i] := by
    simp [hi2]
  rw [← e1, ← e2]
  exact this

theorem full_display_fst (c : Canvas) (hwf : c.WF) :
    c.full_display.1 = { c with prev_buffer := c.tile_buffer } := by
  show ({ c with prev_buffer := c.full_run.prev_buffer } : Canvas) = _
  rw [full_run_prev_eq c hwf]

/-- C14. Two canvases with the same width, height, offset and current grid, whose arrays hold
`height*width` tiles (dimensions within `int`), whatever their previous grids hold: their
`full_display` calls write the same string and leave the same canvas.  In particular a second
`full_display` right after the first writes the same string again. -/
theorem full_display_ignores_prev (c1 c2 : Canvas) (hw : c1.width = c2.width)
    (hh : c1.height = c2.height) (hox : c1.offset_x = c2.offset_x)
    (hoy : c1.offset_y = c2.offset_y) (ht : c1.tile_buffer = c2.tile_buffer)
    (hwf1 : c1.WF) (hwf2 : c2.WF) (_hint : c1.IntSized) :
    c1.full_display.2 = c2.full_display.2 ∧
    c1.full_display.1 = c2.full_display.1 ∧
    c1.full_display.1.full_display.2 = c1.full_display.2 ∧
    c1.full_display.1.full_display.1 = c1.full_display.1 := by
  have e1 := full_display_fst c1 hwf1
  have e2 := full_display_fst c2 hwf2
  have hwf3 : c1.full_display.1.WF := by
    rw [e1]; exact ⟨hwf1.1, hwf1.1⟩
  have e3 := full_display_fst c1.full_display.1 hwf3
  refine ⟨(full_display_output_congr c1 c2 hw hh hox hoy ht).1, ?_,
    (full_display_output_congr c1.full_display.1 c1 rfl rfl rfl rfl rfl).1, ?_⟩
  · rw [e1, e2]
    cases c1; cases c2
    simp only at hw hh hox hoy ht
    simp [hw, hh, hox, hoy, ht]
  · rw [e3, e1]

/-- C14, at two 2×1 canvases holding `X` at `(0,0)`, one never displayed and one just
displayed. -/
theorem full_display_ignores_prev_witness :
    ((Canvas.mk2 2 1).assign 0 0 ⟨"X", ⟨255, 0, 0⟩, ⟨0, 0, 0⟩⟩).2.prev_buffer
      ≠ ((Canvas.mk2 2 1).assign 0 0 ⟨"X", ⟨255, 0, 0⟩, ⟨0, 0, 0⟩⟩).2.lazy_display.1.prev_buffer ∧
    ((Canvas.mk2 2 1).assign 0 0 ⟨"X", ⟨255, 0, 0⟩, ⟨0, 0, 0⟩⟩).2.full_display.2
      = ((Canvas.mk2 2 1).assign 0 0 ⟨"X", ⟨255, 0, 0⟩, ⟨0, 0, 0⟩⟩).2.lazy_display.1.full_display.2 :=
  ⟨by decide,
   (full_display_ignores_prev
      ((Canvas.mk2 2 1).assign 0 0 ⟨"X", ⟨255, 0, 0⟩, ⟨0, 0, 0⟩⟩).2
      ((Canvas.mk2 2 1).assign 0 0 ⟨"X", ⟨255, 0, 0⟩, ⟨0, 0, 0⟩⟩).2.lazy_display.1
      rfl rfl rfl rfl rfl (by decide) (by decide) (by decide)).1⟩

theorem full_cell_log (c : Canvas) (y : Nat) (st : FullState) (x : Nat) :
    ∃ d : Draw, (c.full_cell y st x).drawn = st.drawn ++ [d] ∧ d.cell = (x, y) ∧
      (c.full_cell y st x).output = st.output ++ d.text ∧
      d.column = "\x1b[" ++ toString (size_t (c.offset_x + x + 1)) ++ "G" ∧
      d.vertical = "" ∧
      ∃ pre, d.body = pre ++ (c.cur x y).symbol := by
  refine ⟨_, rfl, rfl, ?_, rfl, rfl, ?_⟩
  · simp only [Canvas.full_cell, Draw.text, String.append_assoc, String.empty_append]
  · simp only [Canvas.cur]
    split
    · exact toEscaped_ends _
    · exact ⟨"", by simp [Tile.raw_symbol]⟩

theorem full_cells_log (c : Canvas) (y : Nat) (l : List Nat) (st : FullState) :
    ∃ ds : List Draw, (l.foldl (c.full_cell y) st).drawn = st.drawn ++ ds ∧
      ds.map Draw.cell = l.map (fun x => (x, y)) ∧
      ds.map Draw.column = l.map (fun x => "\x1b[" ++ toString (size_t (c.offset_x + x + 1)) ++ "G") ∧
      (l.foldl (c.full_cell y) st).output = st.output ++ String.join (ds.map Draw.text) ∧
      ∀ d ∈ ds, d.column = "\x1b[" ++ toString (size_t (c.offset_x + d.x + 1)) ++ "G" ∧
        d.vertical = "" ∧ ∃ pre, d.body = pre ++ (c.cur d.x d.y).symbol := by
  induction l generalizing st with
  | nil => exact ⟨[], by simp, by simp, by simp, by simp [join_nil], by simp⟩
  | cons x l ih =>
    obtain ⟨d, hd1, hd2, hd3, hd4, hd5, hd6⟩ := full_cell_log c y st x
    obtain ⟨ds, h1, h2, h3, h4, h5⟩ := ih (c.full_cell y st x)
    have hdx : d.x = x := congrArg Prod.fst hd2
    have hdy : d.y = y := congrArg Prod.snd hd2
    refine ⟨d :: ds, ?_, ?_, ?_, ?_, ?_⟩
    · rw [List.foldl_cons, h1, hd1, List.append_assoc]; rfl
    · rw [List.map_cons, List.map_cons, hd2, h2]
    · rw [List.map_cons, List.map_cons, hd4, h3]
    · rw [List.foldl_cons, h4, hd3, List.map_cons, join_cons, String.append_assoc]
    · intro e he
      rcases List.mem_cons.mp he with rfl | he
      · exact ⟨by rw [hd4, hdx], hd5, by rw [hdx, hdy]; exact hd6⟩
      · exact h5 e he

theorem full_row_log (c : Canvas) (st : FullState) (y : Nat) :
    ∃ ds : List Draw, (c.full_row st y).drawn = st.drawn ++ ds ∧
      ds.map Draw.cell = (List.range c.width).reverse.map (fun x => (x, y)) ∧
      ds.map Draw.column = (List.range c.width).reverse.map
        (fun x => "\x1b[" ++ toString (size_t (c.offset_x + x + 1)) ++ "G") ∧
      (c.full_row st y).output
        = st.output ++ (String.join (ds.map Draw.text) ++ "\x1b[39m\x1b[49m\r\n") ∧
      ∀ d ∈ ds, d.x < c.width ∧
        d.column = "\x1b[" ++ toString (size_t (c.offset_x + d.x + 1)) ++ "G" ∧
        d.vertical = "" ∧ ∃ pre, d.body = pre ++ (c.cur d.x d.y).symbol := by
  obtain ⟨ds, h1, h2, h3, h4, h5⟩ := full_cells_log c y (List.range c.width).reverse
    { st with mismatch := true }
  refine ⟨ds, h1, h2, h3, ?_, ?_⟩
  · simp only [Canvas.full_row, h4, String.append_assoc]
    rfl
  · intro d hd
    refine ⟨?_, h5 d hd⟩
    have hm : d.cell ∈ ds.map Draw.cell := List.mem_map_of_mem _ hd
    rw [h2] at hm
    simp only [List.mem_map, List.mem_reverse, List.mem_range] at hm
    obtain ⟨x, hx, hxy⟩ := hm
    have : x = d.x := congrArg Prod.fst hxy
    rw [← this]; exact hx

theorem full_rows_log (c : Canvas) (ys : List Nat) (st : FullState) :
    ∃ rows : List (List Draw), (ys.foldl c.full_row st).drawn = st.drawn ++ rows.flatten ∧
      rows.map (List.map Draw.cell)
        = ys.map (fun y => (List.range c.width).reverse.map (fun x => (x, y))) ∧
      rows.map (List.map Draw.column)
        = ys.map (fun _ => (List.range c.width).reverse.map
            (fun x => "\x1b[" ++ toString (size_t (c.offset_x + x + 1)) ++ "G")) ∧
      (ys.foldl c.full_row st).output = st.output ++ String.join (rows.map
        (fun r => String.join (r.map Draw.text) ++ "\x1b[39m\x1b[49m\r\n")) ∧
      ∀ d ∈ rows.flatten, d.x < c.width ∧
        d.column = "\x1b[" ++ toString (size_t (c.offset_x + d.x + 1)) ++ "G" ∧
        d.vertical = "" ∧ ∃ pre, d.body = pre ++ (c.cur d.x d.y).symbol := by
  induction ys generalizing st with
  | nil => exact ⟨[], by simp, by simp, by simp, by simp [join_nil], by simp⟩
  | cons y ys ih =>
    obtain ⟨ds, g1, g2, g3, g4, g5⟩ := full_row_log c st y
    obtain ⟨rows, h1, h2, h3, h4, h5⟩ := ih (c.full_row st y)
    refine ⟨ds :: rows, ?_, ?_, ?_, ?_, ?_⟩
    · rw [List.foldl_cons, h1, g1, List.append_assoc, List.flatten_cons]
    · rw [List.map_cons, List.map_cons, g2, h2]
    · rw [List.map_cons, List.map_cons, g3, h3]
    · rw [List.foldl_cons, h4, g4, List.map_cons, join_cons, String.append_assoc]
    · intro e he
      rw [List.flatten_cons, List.mem_append] at he
      rcases he with he | he
      · exact g5 e he
      · exact h5 e he

/-- C18. On a canvas whose arrays hold `height*width` tiles (dimensions within `int`, column
numbers within `size_t`): `full_display` draws the rows from the top, each row from
`x = width-1` down to `x = 0`, so the column moves of a row are `ESC[offset_x+width G` down to
`ESC[offset_x+1 G`; its output is the prologue, then for each row the texts of its cells
followed by the colour reset and CR LF, then the cursor restore.  In `full_display` and in
`lazy_display` the text of every drawn cell `(x,y)` starts with the column move
`ESC[offset_x+x+1 G` and ends with the cell's symbol. -/
theorem column_moves_absolute (c : Canvas) (_hwf : c.WF) (_hint : c.IntSized)
    (hcol : c.ColumnsFit) :
    (∃ rows : List (List Draw),
      c.full_run.drawn = rows.flatten ∧
      rows.map (List.map Draw.cell)
        = (List.range c.height).map
            (fun y => (List.range c.width).reverse.map (fun x => (x, y))) ∧
      rows.map (List.map Draw.column)
        = (List.range c.height).map (fun _ => (List.range c.width).reverse.map
            (fun x => "\x1b[" ++ toString (c.offset_x + x + 1) ++ "G")) ∧
      c.full_display.2 = c.prologue ++ String.join (rows.map
        (fun r => String.join (r.map (fun d => d.column ++ d.body))
          ++ "\x1b[39m\x1b[49m\r\n")) ++ "\x1b[u") ∧
    (∀ d ∈ c.full_run.drawn,
      d.text = d.column ++ d.body ∧
      d.column = "\x1b[" ++ toString (c.offset_x + d.x + 1) ++ "G" ∧
      ∃ pre, d.body = pre ++ (c.cur d.x d.y).symbol) ∧
    c.lazy_display.2
      = c.prologue ++ String.join (c.lazy_drawn.map (fun d => d.column ++ d.vertical ++ d.body))
        ++ "\x1b[u\x1b[39m\x1b[49m" ∧
    (∀ d ∈ c.lazy_drawn,
      d.text = d.column ++ d.vertical ++ d.body ∧
      d.column = "\x1b[" ++ toString (c.offset_x + d.x + 1) ++ "G" ∧
      ∃ pre, d.body = pre ++ (c.cur d.x d.y).symbol) := by
  obtain ⟨rows, h1, h2, h3, h4, h5⟩ := full_rows_log c (List.range c.height)
    { output := c.prologue, last_tile := none, mismatch := false,
      prev_buffer := c.prev_buffer, drawn := [] }
  have hd : c.full_run.drawn = rows.flatten := by
    rw [Canvas.full_run, h1]; rfl
  have hgrid := lazy_drawn_in_grid c
  obtain ⟨ds, l1, _, l3, l4⟩ := lazy_init_fold c
  have hfun : (List.range c.width).reverse.map
        (fun x => "\x1b[" ++ toString (size_t (c.offset_x + x + 1)) ++ "G")
      = (List.range c.width).reverse.map
        (fun x => "\x1b[" ++ toString (c.offset_x + x + 1) ++ "G") := by
    apply List.map_congr_left
    intro x hx
    rw [column_of_fit c hcol x (by simpa using hx)]
  have htext : ∀ r ∈ rows, r.map Draw.text = r.map (fun d => d.column ++ d.body) := by
    intro r hr
    apply List.map_congr_left
    intro d hdr
    have hv := (h5 d (List.mem_flatten.mpr ⟨r, hr, hdr⟩)).2.2.1
    simp only [Draw.text, hv, String.append_empty]
  have hrows : rows.map (fun r => String.join (r.map Draw.text) ++ "\x1b[39m\x1b[49m\r\n")
      = rows.map (fun r => String.join (r.map (fun d => d.column ++ d.body))
          ++ "\x1b[39m\x1b[49m\r\n") := by
    apply List.map_congr_left
    intro r hr
    rw [htext r hr]
  refine ⟨⟨rows, hd, h2, ?_, ?_⟩, ?_, ?_, ?_⟩
  · rw [h3, hfun]
  · simp only [Canvas.full_display, Canvas.full_run, h4, hrows]
  · intro d hdm
    rw [hd] at hdm
    obtain ⟨p0, p1, p2, p3⟩ := h5 d hdm
    refine ⟨by simp only [Draw.text, p2, String.append_empty], ?_, p3⟩
    rw [p1, column_of_fit c hcol d.x p0]
  · rw [l1]
    have ht : ds.map Draw.text = ds.map (fun d => d.column ++ d.vertical ++ d.body) := rfl
    simp only [Canvas.lazy_display, l3]
    rw [ht, String.append_assoc _ "\x1b[u"]
    rfl
  · intro d hdm
    refine ⟨rfl, ?_, (l4 d (l1 ▸ hdm)).2⟩
    rw [(l4 d (l1 ▸ hdm)).1, column_of_fit c hcol d.x (hgrid d hdm).1]

/-- C18, at a 2×1 canvas at offset `(3,0)` never displayed, with `X` at `(0,0)`: the column
moves `full_display` records for its row, and what `lazy_display`, drawing `(0,0)` only,
writes. -/
theorem column_moves_absolute_witness :
    ((Canvas.mk4 2 1 3 0).assign 0 0 ⟨"X", ⟨255, 0, 0⟩, ⟨0, 0, 0⟩⟩).2.ColumnsFit ∧
    (((Canvas.mk4 2 1 3 0).assign 0 0 ⟨"X", ⟨255, 0, 0⟩, ⟨0, 0, 0⟩⟩).2.full_run.drawn.map
      Draw.column = ["\x1b[5G", "\x1b[4G"]) ∧
    (((Canvas.mk4 2 1 3 0).assign 0 0 ⟨"X", ⟨255, 0, 0⟩, ⟨0, 0, 0⟩⟩).2.lazy_drawn.map
      Draw.column = ["\x1b[4G"]) ∧
    ((Canvas.mk4 2 1 3 0).assign 0 0 ⟨"X", ⟨255, 0, 0⟩, ⟨0, 0, 0⟩⟩).2.lazy_display.2
      = ((Canvas.mk4 2 1 3 0).assign 0 0 ⟨"X", ⟨255, 0, 0⟩, ⟨0, 0, 0⟩⟩).2.prologue
        ++ String.join (((Canvas.mk4 2 1 3 0).assign 0 0
            ⟨"X", ⟨255, 0, 0⟩, ⟨0, 0, 0⟩⟩).2.lazy_drawn.map
              (fun d => d.column ++ d.vertical ++ d.body))
        ++ "\x1b[u\x1b[39m\x1b[49m" :=
  ⟨by decide, by decide, by decide,
   (column_moves_absolute ((Canvas.mk4 2 1 3 0).assign 0 0 ⟨"X", ⟨255, 0, 0⟩, ⟨0, 0, 0⟩⟩).2
    (by decide) (by decide) (by decide)).2.2.1⟩

theorem row_deltas_concat (a : Nat) (l : List Nat) (y : Nat) :
    row_deltas a (l ++ [y]) = row_deltas a l ++ [y - l.getLastD a] := by
  induction l generalizing a with
  | nil => rfl
  | cons b l ih =>
    show (b - a) :: row_deltas b (l ++ [y]) = _
    rw [ih]
    cases l <;> rfl

theorem vertical_eq (y ly : Nat) (hle : ly ≤ y) :
    (if (y : Int) ≠ (ly : Int)
      then ("\x1b[" ++ toString ((y : Int) - (ly : Int)).natAbs).push
        (if (y : Int) - (ly : Int) > 0 then 'B' else 'A')
      else "") = down_move (y - ly) := by
  unfold down_move
  by_cases h : y = ly
  · subst h; simp
  · have h1 : (y : Int) ≠ (ly : Int) := by exact_mod_cast h
    have h2 : y - ly ≠ 0 := by omega
    have h3 : (y : Int) - (ly : Int) > 0 := by omega
    have h4 : ((y : Int) - (ly : Int)).natAbs = y - ly := by omega
    rw [if_pos h1, if_pos h2, if_pos h3, h4]
    apply String.ext
    simp [String.data_push, String.data_append]

theorem lazy_step_record (c : Canvas) (st : LazyState) (p : Nat × Nat)
    (h : touched (st.prev_buffer.getD (p.2 * c.width + p.1) Tile.default)
          (c.tile_buffer.getD (p.2 * c.width + p.1) Tile.default) = true) :
    ∃ d : Draw, (c.lazy_step st p).drawn = st.drawn ++ [d] ∧
      (c.lazy_step st p).first = false ∧
      (c.lazy_step st p).last_tile = some (c.cur p.1 p.2) ∧
      (c.lazy_step st p).last_y = (p.2 : Int) ∧
      d.x = p.1 ∧ d.y = p.2 ∧
      d.escaped = (match st.last_tile with
        | some last => (st.first || last.fore_color.ne (c.cur p.1 p.2).fore_color)
            || last.back_color.ne (c.cur p.1 p.2).back_color
        | none => st.first) ∧
      d.vertical = (if (p.2 : Int) ≠ st.last_y
        then ("\x1b[" ++ toString ((p.2 : Int) - st.last_y).natAbs).push
          (if (p.2 : Int) - st.last_y > 0 then 'B' else 'A')
        else "") ∧
      d.body = (if d.escaped then (c.cur p.1 p.2).toEscaped else (c.cur p.1 p.2).raw_symbol) := by
  unfold Canvas.lazy_step Canvas.lazy_cell
  simp only [h, if_true]
  refine ⟨_, rfl, ?_, ?_, ?_, ?_, ?_, ?_, ?_, ?_⟩ <;> first | rfl | trivial

theorem lazy_init_inv (c : Canvas) : c.LazyInv c.lazy_init := by
  refine ⟨?_, rfl, rfl, ?_, ?_, ?_, rfl, ?_⟩
  · simp [Canvas.lazy_init]
  · intro d hd; simp [Canvas.lazy_init] at hd
  · simp [Canvas.lazy_init]
  · intro d hd; simp [Canvas.lazy_init] at hd
  · simp [Canvas.lazy_init]

theorem lazy_step_inv (c : Canvas) (st : LazyState) (p : Nat × Nat) (hinv : c.LazyInv st)
    (hle : (st.drawn.map Draw.y).getLastD 0 ≤ p.2) :
    c.LazyInv (c.lazy_step st p) ∧
    (((c.lazy_step st p).drawn.map Draw.y).getLastD 0 = (st.drawn.map Draw.y).getLastD 0 ∨
     ((c.lazy_step st p).drawn.map Draw.y).getLastD 0 = p.2) := by
  by_cases ht : touched (st.prev_buffer.getD (p.2 * c.width + p.1) Tile.default)
      (c.tile_buffer.getD (p.2 * c.width + p.1) Tile.default) = true
  · obtain ⟨d, hd, hfirst, hlast, hly, hx, hy, hesc, hvert, hbody⟩ := lazy_step_record c st p ht
    obtain ⟨i1, i2, i3, i4, i5, i6, i7, i8⟩ := hinv
    have hmapy : (st.drawn ++ [d]).map Draw.y = st.drawn.map Draw.y ++ [p.2] := by
      rw [List.map_append, List.map_cons, List.map_nil, hy]
    have hcur : c.cur d.x d.y = c.cur p.1 p.2 := by rw [hx, hy]
    refine ⟨⟨?_, ?_, ?_, ?_, ?_, ?_, ?_, ?_⟩, Or.inr ?_⟩
    · rw [hd, hfirst]; simp
    · rw [hd, hlast, List.getLast?_concat, Option.map_some', hcur]
    · rw [hd, hly, hmapy, List.getLastD_concat]
    · intro e he
      rw [hd] at he
      cases hds : st.drawn with
      | nil =>
        rw [hds] at he
        simp only [List.nil_append, List.head?_cons, Option.some.injEq] at he
        subst he
        have hf : st.first = true := i1.mpr hds
        have hl : st.last_tile = none := by rw [i2, hds]; rfl
        rw [hesc, hl, hf]
      | cons a l =>
        rw [hds] at he
        simp only [List.cons_append, List.head?_cons, Option.some.injEq] at he
        subst he
        exact i4 a (by rw [hds]; rfl)
    · rw [hd]
      refine List.Chain'.append i5 (List.chain'_singleton d) ?_
      intro e he y hy2
      simp only [List.head?_cons, Option.mem_def, Option.some.injEq] at hy2
      subst hy2
      rw [Option.mem_def] at he
      have hne : st.drawn ≠ [] := by
        intro h0; rw [h0] at he; simp at he
      have hf : st.first = false := by
        cases hfv : st.first with
        | false => rfl
        | true => exact absurd (i1.mp hfv) hne
      have hl : st.last_tile = some (c.cur e.x e.y) := by rw [i2, he]; rfl
      rw [hesc, hl, hf, hcur]
      simp [colour_differs]
    · intro e he
      rw [hd, List.mem_append, List.mem_singleton] at he
      rcases he with he | rfl
      · exact i6 e he
      · rw [hcur]; exact hbody
    · rw [hd, List.map_append, List.map_cons, List.map_nil, hmapy, row_deltas_concat,
        List.map_append, List.map_cons, List.map_nil, i7, hvert, i3, vertical_eq _ _ hle]
    · rw [hd, hmapy]
      refine List.Chain'.append i8 (List.chain'_singleton _) ?_
      intro a ha b hb
      simp only [List.head?_cons, Option.mem_def, Option.some.injEq] at hb
      subst hb
      rw [Option.mem_def] at ha
      have : (List.map Draw.y st.drawn).getLastD 0 = a := by
        rw [List.getLastD_eq_getLast?, ha]; rfl
      rw [← this]; exact hle
    · rw [hd, hmapy, List.getLastD_concat]
  · have ht2 : touched (st.prev_buffer.getD (p.2 * c.width + p.1) Tile.default)
        (c.tile_buffer.getD (p.2 * c.width + p.1) Tile.default) = false := by
      simpa using ht
    rw [lazy_step_untouched c st p ht2]
    exact ⟨hinv, Or.inl rfl⟩

theorem lazy_fold_inv (c : Canvas) (l : List (Nat × Nat))
    (hl : l.Pairwise (fun p q => p.2 ≤ q.2)) (st : LazyState) (hinv : c.LazyInv st)
    (hle : ∀ p ∈ l, (st.drawn.map Draw.y).getLastD 0 ≤ p.2) :
    c.LazyInv (l.foldl c.lazy_step st) := by
  induction l generalizing st with
  | nil => exact hinv
  | cons p l ih =>
    rw [List.pairwise_cons] at hl
    obtain ⟨h1, h2⟩ := lazy_step_inv c st p hinv (hle p (List.mem_cons_self p l))
    rw [List.foldl_cons]
    apply ih hl.2 _ h1
    intro q hq
    rcases h2 with h2 | h2
    · rw [h2]; exact hle q (List.mem_cons_of_mem p hq)
    · rw [h2]; exact hl.1 q hq

theorem scan_rows_sorted (w h : Nat) : (scan w h).Pairwise (fun p q => p.2 ≤ q.2) := by
  unfold scan
  rw [List.pairwise_flatMap]
  refine ⟨fun y _ => ?_, ?_⟩
  · rw [List.pairwise_map]
    exact List.pairwise_of_forall (fun _ _ => Nat.le_refl y)
  · have hr : (List.range h).Pairwise (fun a b => a < b) := List.pairwise_lt_range h
    refine hr.imp ?_
    intro a b hab p hp q hq
    simp only [List.mem_map, List.mem_reverse, List.mem_range] at hp hq
    obtain ⟨_, _, rfl⟩ := hp
    obtain ⟨_, _, rfl⟩ := hq
    exact Nat.le_of_lt hab

theorem lazy_run_inv (c : Canvas) : c.LazyInv c.lazy_run := by
  rw [lazy_run_eq]
  exact lazy_fold_inv c _ (scan_rows_sorted c.width c.height) c.lazy_init (lazy_init_inv c)
    (fun p _ => Nat.zero_le _)

theorem chain_tail_of_all {α : Type} (R : α → α → Prop) (P : α → Prop) (l : List α)
    (hc : List.Chain' R l) (h : ∀ a ∈ l, ∀ b ∈ l, R a b → P b) : ∀ d ∈ l.tail, P d := by
  induction l with
  | nil => simp
  | cons a l ih =>
    cases l with
    | nil => simp
    | cons b l =>
      rw [List.chain'_cons] at hc
      intro d hd
      simp only [List.tail_cons, List.mem_cons] at hd
      rcases hd with rfl | hd
      · exact h a (List.mem_cons_self _ _) d (by simp) hc.1
      · apply ih hc.2 (fun x hx y hy hxy =>
          h x (List.mem_cons_of_mem _ hx) y (List.mem_cons_of_mem _ hy) hxy)
        simpa using hd

theorem lazy_output_eq (c : Canvas) :
    c.lazy_display.2
      = c.prologue ++ String.join (c.lazy_drawn.map (fun d => d.column ++ d.vertical ++ d.body))
        ++ "\x1b[u\x1b[39m\x1b[49m" := by
  obtain ⟨ds, l1, _, l3, _⟩ := lazy_init_fold c
  rw [l1]
  have ht : ds.map Draw.text = ds.map (fun d => d.column ++ d.vertical ++ d.body) := rfl
  simp only [Canvas.lazy_display, l3]
  rw [ht, String.append_assoc _ "\x1b[u"]
  rfl

/-- C17. On a canvas whose arrays hold `height*width` tiles (dimensions within `int`), the
string `lazy_display` writes is the prologue, then for each drawn cell its column move, its
vertical move and its body, then the epilogue, where: the drawn cells are the touched cells
in scan order; the first of them is written with its colour escapes; every later one is
written with its colour escapes exactly when its foreground or background differs from that of
the cell drawn immediately before it, wherever that cell lies; and the body of a cell is its
escaped conversion when it is written with escapes and its raw symbol otherwise.  So when all
drawn cells share both colours, the body of every drawn cell but the first is its raw
symbol. -/
theorem lazy_escapes_iff_colour_change (c : Canvas) (_hwf : c.WF) (_hint : c.IntSized) :
    c.lazy_display.2
      = c.prologue ++ String.join (c.lazy_drawn.map (fun d => d.column ++ d.vertical ++ d.body))
        ++ "\x1b[u\x1b[39m\x1b[49m" ∧
    c.lazy_drawn.map Draw.cell
      = (scan c.width c.height).filter (fun p => touched (c.prev p.1 p.2) (c.cur p.1 p.2)) ∧
    (∀ d, c.lazy_drawn.head? = some d → d.escaped = true) ∧
    List.Chain' (fun d1 d2 => (d2.escaped = true ↔
        ((c.cur d1.x d1.y).fore_color ≠ (c.cur d2.x d2.y).fore_color ∨
         (c.cur d1.x d1.y).back_color ≠ (c.cur d2.x d2.y).back_color))) c.lazy_drawn ∧
    (∀ d ∈ c.lazy_drawn, d.body = if d.escaped then (c.cur d.x d.y).toEscaped
      else (c.cur d.x d.y).raw_symbol) ∧
    ((∀ d1 ∈ c.lazy_drawn, ∀ d2 ∈ c.lazy_drawn,
        (c.cur d1.x d1.y).fore_color = (c.cur d2.x d2.y).fore_color ∧
        (c.cur d1.x d1.y).back_color = (c.cur d2.x d2.y).back_color) →
      ∀ d ∈ c.lazy_drawn.tail, d.escaped = false ∧ d.body = (c.cur d.x d.y).symbol) := by
  obtain ⟨_, _, _, i4, i5, i6, _, _⟩ := lazy_run_inv c
  obtain ⟨ds, l1, l2, _, _⟩ := lazy_init_fold c
  have hchain : List.Chain' (fun d1 d2 => (d2.escaped = true ↔
        ((c.cur d1.x d1.y).fore_color ≠ (c.cur d2.x d2.y).fore_color ∨
         (c.cur d1.x d1.y).back_color ≠ (c.cur d2.x d2.y).back_color))) c.lazy_drawn := by
    refine List.Chain'.imp ?_ i5
    intro d1 d2 h
    rw [h, colour_differs, Bool.or_eq_true, RGB.ne_eq_true_iff, RGB.ne_eq_true_iff]
  refine ⟨lazy_output_eq c, by rw [l1]; exact l2, i4, hchain, i6, ?_⟩
  intro hall
  have hesc : ∀ d ∈ c.lazy_drawn.tail, d.escaped = false := by
    apply chain_tail_of_all _ (fun d => d.escaped = false) _ hchain
    intro a ha b hb hab
    have := hall a ha b hb
    cases hb2 : b.escaped with
    | false => rfl
    | true =>
      rcases hab.mp hb2 with h | h
      · exact absurd this.1 h
      · exact absurd this.2 h
  intro d hd
  have he := hesc d hd
  refine ⟨he, ?_⟩
  rw [i6 d (List.mem_of_mem_tail hd), he]
  rfl

/-- C17, at a 2×2 canvas never displayed whose cells `(1,0)` and `(0,1)` hold `X` and `Y` in
the same colours: the cells drawn, whether each was written with escapes, and the string
written, in which `Y` follows its moves without any escape. -/
theorem lazy_escapes_iff_colour_change_witness :
    ((((Canvas.mk2 2 2).assign 1 0 ⟨"X", ⟨255, 0, 0⟩, ⟨0, 0, 0⟩⟩).2.assign 0 1
        ⟨"Y", ⟨255, 0, 0⟩, ⟨0, 0, 0⟩⟩).2.lazy_drawn.map
      (fun d => (d.x, d.y, d.escaped))) = [(1, 0, true), (0, 1, false)] ∧
    (((Canvas.mk2 2 2).assign 1 0 ⟨"X", ⟨255, 0, 0⟩, ⟨0, 0, 0⟩⟩).2.assign 0 1
        ⟨"Y", ⟨255, 0, 0⟩, ⟨0, 0, 0⟩⟩).2.lazy_display.2
      = "\x1b[s\x1b[2G\x1b[38;2;255;0;0m\x1b[48;2;0;0;0mX\x1b[1G\x1b[1BY\x1b[u\x1b[39m\x1b[49m" ∧
    (((Canvas.mk2 2 2).assign 1 0 ⟨"X", ⟨255, 0, 0⟩, ⟨0, 0, 0⟩⟩).2.assign 0 1
        ⟨"Y", ⟨255, 0, 0⟩, ⟨0, 0, 0⟩⟩).2.lazy_display.2
      = (((Canvas.mk2 2 2).assign 1 0 ⟨"X", ⟨255, 0, 0⟩, ⟨0, 0, 0⟩⟩).2.assign 0 1
          ⟨"Y", ⟨255, 0, 0⟩, ⟨0, 0, 0⟩⟩).2.prologue
        ++ String.join ((((Canvas.mk2 2 2).assign 1 0 ⟨"X", ⟨255, 0, 0⟩, ⟨0, 0, 0⟩⟩).2.assign
            0 1 ⟨"Y", ⟨255, 0, 0⟩, ⟨0, 0, 0⟩⟩).2.lazy_drawn.map
              (fun d => d.column ++ d.vertical ++ d.body))
        ++ "\x1b[u\x1b[39m\x1b[49m" :=
  ⟨by decide, by decide,
   (lazy_escapes_iff_colour_change
      (((Canvas.mk2 2 2).assign 1 0 ⟨"X", ⟨255, 0, 0⟩, ⟨0, 0, 0⟩⟩).2.assign 0 1
        ⟨"Y", ⟨255, 0, 0⟩, ⟨0, 0, 0⟩⟩).2 (by decide) (by decide)).1⟩

/-- C12 as stated fails: in the scenario `full_display` writes three cells with their colour
escapes, not one, only one of the six symbols it writes is not empty, and the `lazy_display`
that follows writes sixteen characters, not none. -/
theorem scenario_not_one_escape_pair :
    (scenario_canvas.full_run.drawn.filter (fun d => d.escaped)).length = 3 ∧
    (scenario_canvas.full_run.drawn.filter (fun d => d.escaped)).map Draw.cell
      = [(2, 0), (2, 1), (1, 1)] ∧
    scenario_canvas.full_run.drawn.map (fun d => (scenario_canvas.cur d.x d.y).symbol)
      = ["", "", "", "X", "", ""] ∧
    scenario_canvas.full_display.1.lazy_display.2.length = 16 := by
  decide

/-- C12, amended. In the scenario `full_display` writes six cells, row `0` then row `1`, each
from `x = 2` down to `x = 0`; the symbol of `(2,1)` is `X` and the other five symbols are
empty; colour escapes are written for the first cell of each row, `(2,0)` and `(2,1)`, and for
`(1,1)`, whose foreground differs from that of `X`, the pair of `(2,1)` immediately before
`X`.  The `lazy_display` that follows draws no cell and writes the cursor save, the cursor
restore and the colour reset only. -/
theorem scenario_output :
    scenario_canvas.full_display.2
      = "\x1b[s"
        ++ "\x1b[3G\x1b[38;2;0;0;0m\x1b[48;2;0;0;0m" ++ "\x1b[2G" ++ "\x1b[1G"
        ++ "\x1b[39m\x1b[49m\r\n"
        ++ "\x1b[3G\x1b[38;2;255;0;0m\x1b[48;2;0;0;0mX"
        ++ "\x1b[2G\x1b[38;2;0;0;0m\x1b[48;2;0;0;0m" ++ "\x1b[1G"
        ++ "\x1b[39m\x1b[49m\r\n"
        ++ "\x1b[u" ∧
    scenario_canvas.full_run.drawn.map Draw.cell
      = [(2, 0), (1, 0), (0, 0), (2, 1), (1, 1), (0, 1)] ∧
    scenario_canvas.full_run.drawn.map Draw.escaped
      = [true, false, false, true, true, false] ∧
    scenario_canvas.full_display.1.lazy_drawn = [] ∧
    scenario_canvas.full_display.1.lazy_display.2 = "\x1b[s\x1b[u\x1b[39m\x1b[49m" := by
  decide

theorem handle_input_done_stays (cs : List Char) (s : InputShared) (h : s.done = true) :
    handle_input cs s = s := by
  cases cs with
  | nil => rfl
  | cons c cs => simp [handle_input, h]

/-- C21. One step of the input dispatcher on the character `c`: for `q` or `Q`, `done` becomes
true and `dir` is unchanged; for `w`, `a`, `s`, `d` in either case, `dir` becomes the
lower-case letter and `done` is unchanged; for every other character both are unchanged.  No
step turns a true `done` into false, and once `done` is true the loop returns the state as it
is, whatever characters follow. -/
theorem handle_input_step_dispatch (s : InputShared) (c : Char) :
    ((c = 'q' ∨ c = 'Q') → handle_input_step s c = { done := true, dir := s.dir }) ∧
    ((c = 'w' ∨ c = 'W') → handle_input_step s c = { done := s.done, dir := 'w' }) ∧
    ((c = 'a' ∨ c = 'A') → handle_input_step s c = { done := s.done, dir := 'a' }) ∧
    ((c = 's' ∨ c = 'S') → handle_input_step s c = { done := s.done, dir := 's' }) ∧
    ((c = 'd' ∨ c = 'D') → handle_input_step s c = { done := s.done, dir := 'd' }) ∧
    (c ∉ ['q', 'Q', 'w', 'W', 'a', 'A', 's', 'S', 'd', 'D'] → handle_input_step s c = s) ∧
    (s.done = true → (handle_input_step s c).done = true) ∧
    (∀ cs : List Char, s.done = true → handle_input cs s = s) := by
  refine ⟨?_, ?_, ?_, ?_, ?_, ?_, ?_, fun cs h => handle_input_done_stays cs s h⟩
  · rintro (rfl | rfl) <;> rfl
  · rintro (rfl | rfl) <;> rfl
  · rintro (rfl | rfl) <;> rfl
  · rintro (rfl | rfl) <;> rfl
  · rintro (rfl | rfl) <;> rfl
  · intro h
    simp only [List.mem_cons, List.mem_singleton, List.mem_nil_iff, or_false, not_or] at h
    obtain ⟨h1, h2, h3, h4, h5, h6, h7, h8, h9, h10⟩ := h
    simp [handle_input_step, h1, h2, h3, h4, h5, h6, h7, h8, h9, h10]
  · intro h
    unfold handle_input_step
    split_ifs <;> simp [h]

/-- C21, at the state `(false, 'd')`: the characters `W`, `Q` and `x`. -/
theorem handle_input_step_dispatch_witness :
    handle_input_step ⟨false, 'd'⟩ 'W' = ⟨false, 'w'⟩ ∧
    handle_input_step ⟨false, 'd'⟩ 'Q' = ⟨true, 'd'⟩ ∧
    handle_input_step ⟨false, 'd'⟩ 'x' = ⟨false, 'd'⟩ ∧
    handle_input ['a', 'Q', 'w'] ⟨false, 'd'⟩ = ⟨true, 'a'⟩ :=
  ⟨(handle_input_step_dispatch ⟨false, 'd'⟩ 'W').2.1 (Or.inr rfl),
   (handle_input_step_dispatch ⟨false, 'd'⟩ 'Q').1 (Or.inr rfl),
   (handle_input_step_dispatch ⟨false, 'd'⟩ 'x').2.2.2.2.2.1 (by decide),
   by decide⟩

/-- C22 fails on the code. `resize(2,1)` of a 2×1 canvas computes the row limit from the
widths, `min(2,2) = 2`, and in row `1` reads `(*this)(0,1)` with `y = 1` not below the height
`1`: the out-of-bounds error is thrown, and the canvas is left as it was. -/
theorem resize_reads_out_of_bounds :
    ((Canvas.mk2 2 1).resize 2 1).1 = Except.error (ResizeFault.thrown
      "Canvas with dimensions (2,1) accessed out of bounds with coordinates (0,1)") ∧
    (Canvas.mk2 2 1).read 0 1 = Except.error
      "Canvas with dimensions (2,1) accessed out of bounds with coordinates (0,1)" ∧
    ¬ (1 < (Canvas.mk2 2 1).height) ∧
    ((Canvas.mk2 2 1).resize 2 1).2 = Canvas.mk2 2 1 :=
  ⟨rfl, rfl, by decide, rfl⟩

theorem resize_store_outside :
    ((Canvas.mk2 2 2).resize 2 1).1 = Except.error (ResizeFault.store_outside 2 2) :=
  rfl

end TUI
